import Mathlib

/-!
Shallow embedding of the medipredict data pipeline.

Strings are modelled as `List Char`; JavaScript numbers as `ℚ` where the
code only performs field arithmetic (with `Option ℚ` marking the `NaN`
produced by `0/0`), and as `ℝ` for the temperature-scaling step, which
uses fractional powers.  `Math.random()` is modelled as an explicit
stream `g : ℕ → ℚ` of draws, consumed in program order.
-/

/-- Whitespace characters recognised by the JS `trim` used on the ASCII
data handled by this code base. -/
def wsChar (c : Char) : Bool :=
  c = ' ' || c = '\t' || c = '\n' || c = '\r' || c = '\x0b' || c = '\x0c'

/-- Drop leading whitespace (`trimStart`). -/
def trimL (s : List Char) : List Char := s.dropWhile wsChar

/-- Drop trailing whitespace (`trimEnd`). -/
def trimR (s : List Char) : List Char := (s.reverse.dropWhile wsChar).reverse

/-- JS `String.prototype.trim`. -/
def jsTrim (s : List Char) : List Char := trimR (trimL s)

/-- JS `toLowerCase` (ASCII). -/
def toLowerS (s : List Char) : List Char := s.map Char.toLower

/-- JS `String.prototype.split` on a single separator character: empty
pieces are kept and at least one piece is always returned. -/
def splitCh (sep : Char) : List Char → List (List Char)
  | [] => [[]]
  | c :: cs =>
    if c = sep then [] :: splitCh sep cs
    else
      match splitCh sep cs with
      | [] => [[c]]
      | p :: ps => (c :: p) :: ps

/-- Remove one trailing carriage return: the difference between splitting
on the regex `\r?\n` and on plain `\n`. -/
def dropCR (l : List Char) : List Char :=
  match l.reverse with
  | c :: r => if c = '\r' then r.reverse else l
  | [] => l

/-- `content.split(/\r?\n/)`. -/
def splitLines (s : List Char) : List (List Char) := (splitCh '\n' s).map dropCR

/-- Whether a line is blank after trimming (the parser filters these out). -/
def blankLine (l : List Char) : Bool := (jsTrim l).isEmpty

/-- One attempt of the quoted-field alternative `"(?:[^"]*(?:""[^"]*)*)"`
of the cell regex, entered just after an opening quote.  Returns the raw
inner text (escaped quotes kept as written) and the remainder after the
closing quote.  The greedy `(?:""[^"]*)*` loop with backtracking is
reproduced by preferring the paired-quote continuation and falling back to
closing at the first lone quote.  The fuel argument bounds recursion depth
and is never exhausted when it is at least the input length. -/
def tryQuoted : Nat → List Char → Option (List Char × List Char)
  | 0, _ => none
  | fuel + 1, cs =>
    let inner := cs.takeWhile (· ≠ '"')
    match cs.dropWhile (· ≠ '"') with
    | [] => none
    | _ :: rest =>
      match rest with
      | '"' :: rest2 =>
        match tryQuoted fuel rest2 with
        | some (inner2, rest3) => some (inner ++ '"' :: '"' :: inner2, rest3)
        | none => some (inner, rest)
      | _ => some (inner, rest)

/-- The scan performed by `line.matchAll` with the cell regex
`("(?:[^"]*(?:""[^"]*)*)")|([^,]+)`: at each position the quoted
alternative is tried first, then a maximal run of non-comma characters;
positions matching neither (commas, or a comma right away) are skipped.
The raw match of the quoted alternative includes its surrounding quotes.
Fuel bounds recursion and suffices when at least the input length. -/
def csvScan : Nat → List Char → List (List Char)
  | 0, _ => []
  | _ + 1, [] => []
  | fuel + 1, c :: cs =>
    if c = ',' then csvScan fuel cs
    else if c = '"' then
      match tryQuoted (cs.length + 1) cs with
      | some (inner, rest) => ('"' :: (inner ++ ['"'])) :: csvScan fuel rest
      | none =>
        ((c :: cs).takeWhile (· ≠ ',')) :: csvScan fuel ((c :: cs).dropWhile (· ≠ ','))
    else
      ((c :: cs).takeWhile (· ≠ ',')) :: csvScan fuel ((c :: cs).dropWhile (· ≠ ','))

/-- All raw cell matches of a line. -/
def matchCells (l : List Char) : List (List Char) := csvScan l.length l

/-- JS `cell.replace(/""\x2fg, char(34))`: collapse doubled quotes. -/
def unescapeQuotes : List Char → List Char
  | [] => []
  | '"' :: '"' :: rest => '"' :: unescapeQuotes rest
  | c :: rest => c :: unescapeQuotes rest

/-- Post-processing of one raw cell match: if it both starts and ends with
a double quote, strip them (`slice(1, -1)`) and unescape doubled quotes;
then trim. -/
def postCell (cell : List Char) : List Char :=
  jsTrim
    (if cell.head? = some '"' && cell.getLast? = some '"' then
      unescapeQuotes ((cell.drop 1).dropLast)
    else cell)

/-- Parse one data line into its cells. -/
def parseLine (l : List Char) : List (List Char) := (matchCells l).map postCell

/-- The non-blank lines the parser works on: trim the whole content, split
on `\r?\n`, drop blank lines. -/
def csvLines (content : List Char) : List (List Char) :=
  (splitLines (jsTrim content)).filter (fun l => !blankLine l)

/-- Result of `parseCSV`. -/
structure ParsedCSV where
  headers : List (List Char)
  rows : List (List (List Char))
deriving DecidableEq

/-- The `MalformedInput` message thrown by `parseCSV`. -/
def csvErrorMsg : List Char :=
  "El archivo CSV debe tener encabezados y al menos una fila de datos".toList

/-- `parseCSV`: fewer than two non-blank lines is an error; otherwise the
first line, comma-split and trimmed, is the header row and every remaining
line is scanned for cells. -/
def parseCSV (content : List Char) : Except (List Char) ParsedCSV :=
  let lines := csvLines content
  if lines.length < 2 then Except.error csvErrorMsg
  else Except.ok ⟨(splitCh ',' (lines.headD [])).map jsTrim, (lines.drop 1).map parseLine⟩

/-- Digit-string value. -/
def digitsVal (ds : List Char) : Nat := ds.foldl (fun a c => a * 10 + (c.toNat - 48)) 0

/-- JS `Number.parseFloat`: longest numeric prefix
`[+-]? digits [. digits] [(e|E) [+-]? digits]`; `none` models `NaN`. -/
def parseFloatQ (s : List Char) : Option ℚ :=
  let s1 := s.dropWhile wsChar
  let sgn : ℚ := match s1 with | '-' :: _ => -1 | _ => 1
  let s2 : List Char := match s1 with | '-' :: r => r | '+' :: r => r | _ => s1
  let ip := s2.takeWhile Char.isDigit
  let s3 := s2.dropWhile Char.isDigit
  let fp : List Char := match s3 with | '.' :: r => r.takeWhile Char.isDigit | _ => []
  let s4 : List Char := match s3 with | '.' :: r => r.dropWhile Char.isDigit | _ => s3
  if ip.isEmpty && fp.isEmpty then none
  else
    let mant : ℚ := (digitsVal ip : ℚ) + (digitsVal fp : ℚ) / ((10 : ℚ) ^ fp.length)
    let ex : ℤ :=
      match s4 with
      | 'e' :: r | 'E' :: r =>
        let esgn : ℤ := match r with | '-' :: _ => -1 | _ => 1
        let r2 : List Char := match r with | '-' :: t => t | '+' :: t => t | _ => r
        let ed := r2.takeWhile Char.isDigit
        if ed.isEmpty then 0 else esgn * (digitsVal ed : ℤ)
      | _ => 0
    some (sgn * mant * (10 : ℚ) ^ ex)

/-- The fixed 53-field feature schema of `convertToTrainingData`. -/
def featureColumns : List (List Char) :=
  ["age", "gender", "residence", "homemaker", "student", "professional",
   "merchant", "agriculture_livestock", "various_jobs", "unemployed",
   "hospitalization_days", "body_temperature", "fever", "headache",
   "dizziness", "loss_of_appetite", "weakness", "myalgias", "arthralgias",
   "eye_pain", "hemorrhages", "vomiting", "abdominal_pain", "chills",
   "hemoptysis", "edema", "jaundice", "bruises", "petechiae", "rash",
   "diarrhea", "respiratory_difficulty", "itching", "hematocrit",
   "hemoglobin", "red_blood_cells", "white_blood_cells", "neutrophils",
   "eosinophils", "basophils", "monocytes", "lymphocytes", "platelets",
   "AST", "ALT", "ALP", "total_bilirubin", "direct_bilirubin",
   "indirect_bilirubin", "total_proteins", "albumin", "creatinine",
   "urea"].map String.toList

/-- Case-insensitive `headers.findIndex`; `none` stands for JS `-1`. -/
def findIdxCI (headers : List (List Char)) (col : List Char) : Option Nat :=
  headers.findIdx? (fun h => toLowerS h == toLowerS col)

/-- The `diagnosis -> label` map of `convertToTrainingData` (keyed on the
lowercased diagnosis). -/
def diseaseMapCvt (s : List Char) : Option Nat :=
  if s = "dengue".toList then some 0
  else if s = "malaria".toList then some 1
  else if s = "leptospirosis".toList then some 2
  else none

/-- Encoding of one named cell: `gender` and `residence` are categorical,
everything else is `parseFloat` with `NaN ↦ 0`. -/
def encodeCell (col : List Char) (value : List Char) : ℚ :=
  if toLowerS col = "gender".toList then
    (if toLowerS value = "m".toList then 1 else 0)
  else if toLowerS col = "residence".toList then
    (if toLowerS value = "urban".toList ∨ toLowerS value = "urbana".toList then 1 else 0)
  else (parseFloatQ value).getD 0

/-- The row filter: empty rows, all-empty rows and rows shorter than the
header row are skipped. -/
def skipRow (headers : List (List Char)) (row : List (List Char)) : Bool :=
  row.isEmpty || row.all (·.isEmpty) || decide (row.length < headers.length)

/-- One encoded feature row: a schema field absent from the headers is the
constant 0. -/
def encodeRow (headers : List (List Char)) (row : List (List Char)) : List ℚ :=
  featureColumns.map (fun col =>
    match findIdxCI headers col with
    | none => 0
    | some idx => encodeCell col (row.getD idx []))

/-- Label of one row: lowercased diagnosis cell through the disease map,
unrecognised text defaulting to 0. -/
def rowLabel (li : Nat) (row : List (List Char)) : Nat :=
  (diseaseMapCvt (toLowerS (row.getD li []))).getD 0

/-- Result of `convertToTrainingData`. -/
structure CvtResult where
  features : List (List ℚ)
  labels : List Nat
  hasLabels : Bool
  rowCount : Nat
deriving DecidableEq

/-- The row loop of `convertToTrainingData`. -/
def convertRows (headers : List (List Char)) (li : Option Nat) :
    List (List (List Char)) → List (List ℚ) × List Nat
  | [] => ([], [])
  | row :: rest =>
    let r := convertRows headers li rest
    if skipRow headers row then r
    else
      (encodeRow headers row :: r.1,
       match li with
       | some i => rowLabel i row :: r.2
       | none => r.2)

/-- `convertToTrainingData(headers, rows)`. -/
def convertToTrainingData (headers : List (List Char)) (rows : List (List (List Char))) :
    CvtResult :=
  let li := findIdxCI headers "diagnosis".toList
  let r := convertRows headers li rows
  ⟨r.1, r.2, li.isSome, r.1.length⟩

/-- `Math.random() > p ? 1 : 0` at draw index `k`. -/
def bern (g : Nat → ℚ) (k : Nat) (p : ℚ) : ℚ := if g k > p then 1 else 0

/-- The destructuring swap `[d[i], d[j]] = [d[j], d[i]]` (right-hand side
captured before assignment). -/
def swapL (d : α) (l : List α) (i j : Nat) : List α :=
  (l.set i (l.getD j d)).set j (l.getD i d)

/-- The Fisher-Yates loop `for (i = len-1; i > 0; i--)`, one random draw
per iteration, `j = floor(random * (i+1))`. -/
def fyAux (g : Nat → ℚ) (d : α) : Nat → List α → Nat → List α × Nat
  | 0, l, k => (l, k)
  | im + 1, l, k =>
    let i := im + 1
    let j := (Rat.floor (g k * ((i : ℚ) + 1))).toNat
    fyAux g d im (swapL d l i j) (k + 1)

/-- Shuffle a list in place, returning it with the next draw index. -/
def fyShuffle (g : Nat → ℚ) (d : α) (l : List α) (k : Nat) : List α × Nat :=
  fyAux g d (l.length - 1) l k

/-- One synthetic record of `generateSampleData`: 53 features in schema
order, drawn in the exact order the source calls `Math.random()`.
Returns the features and the next draw index. -/
def genRecord (g : Nat → ℚ) (k : Nat) (disease : Nat) : List ℚ × Nat :=
  let age : ℚ := 20 + (Rat.floor (g k * 50) : ℚ)
  let gender := bern g (k + 1) (1/2)
  let residence := bern g (k + 2) (1/2)
  let homemaker := bern g (k + 3) (8/10)
  let student := bern g (k + 4) (7/10)
  let professional := bern g (k + 5) (6/10)
  let merchant := bern g (k + 6) (8/10)
  let agriculture_livestock := bern g (k + 7) (85/100)
  let various_jobs := bern g (k + 8) (75/100)
  let unemployed := bern g (k + 9) (9/10)
  let hospitalization_days : ℚ := 1 + (Rat.floor (g (k + 10) * 10) : ℚ)
  let body_temperature := 36 + g (k + 11) * 5
  let platelets0 := 150 + g (k + 12) * 250
  let ast0 := 10 + g (k + 13) * 40
  let alt0 := 10 + g (k + 14) * 40
  let bili0 : ℚ := 3/10 + g (k + 15) * (3/2)
  let k0 := k + 16
  let b :=
    -- the tuple components, in order: fever, headache, weakness, rash,
    -- arthralgias, myalgias, eye_pain, hemorrhages, petechiae,
    -- loss_of_appetite, vomiting, abdominal_pain, chills, jaundice,
    -- dizziness, platelets, AST, ALT, total_bilirubin, next draw index
    if disease = 0 then
      -- dengue draws: fever, headache, weakness, rash, arthralgias,
      -- myalgias, eye_pain, hemorrhages, petechiae, loss_of_appetite,
      -- platelets override
      (bern g k0 (1/20), bern g (k0 + 1) (1/10), bern g (k0 + 2) (15/100),
       bern g (k0 + 3) (3/10), bern g (k0 + 4) (2/10), bern g (k0 + 5) (15/100),
       bern g (k0 + 6) (25/100), bern g (k0 + 7) (1/2), bern g (k0 + 8) (4/10),
       bern g (k0 + 9) (3/10), 0, 0, 0, 0, 0,
       max 50 (50 + g (k0 + 10) * 150), ast0, alt0, bili0, k0 + 11)
    else if disease = 1 then
      -- malaria draws: fever, chills, headache, weakness, vomiting,
      -- myalgias, dizziness, abdominal_pain, platelets and bilirubin
      -- overrides
      (bern g k0 (1/50), bern g (k0 + 2) (15/100), bern g (k0 + 3) (1/10), 0,
       0, bern g (k0 + 5) (3/10), 0, 0, 0, 0,
       bern g (k0 + 4) (4/10), bern g (k0 + 7) (45/100), bern g (k0 + 1) (1/10),
       0, bern g (k0 + 6) (35/100), max 80 (80 + g (k0 + 8) * 120), ast0, alt0,
       1/2 + g (k0 + 9) * 2, k0 + 10)
    else
      -- leptospirosis draws: fever, headache, myalgias, chills, vomiting,
      -- jaundice, weakness, abdominal_pain, AST/ALT/bilirubin overrides
      (bern g k0 (1/20), bern g (k0 + 1) (1/10), bern g (k0 + 6) (2/10), 0,
       0, bern g (k0 + 2) (1/10), 0, 0, 0, 0, bern g (k0 + 4) (35/100),
       bern g (k0 + 7) (3/10), bern g (k0 + 3) (2/10), bern g (k0 + 5) (4/10),
       0, platelets0,
       30 + g (k0 + 8) * 100, 30 + g (k0 + 9) * 100,
       1 + g (k0 + 10) * 3, k0 + 11)
  let (fever, headache, weakness, rash, arthralgias, myalgias, eye_pain,
       hemorrhages, petechiae, loss_of_appetite, vomiting, abdominal_pain,
       chills, jaundice, dizziness, platelets, ast, alt, total_bilirubin, k1) := b
  let hematocrit := 35 + g k1 * 15
  let hemoglobin := 11 + g (k1 + 1) * 6
  let red_blood_cells := 7/2 + g (k1 + 2) * 2
  let white_blood_cells := 4 + g (k1 + 3) * 8
  let neutrophils := 40 + g (k1 + 4) * 30
  let eosinophils := g (k1 + 5) * 5
  let basophils := g (k1 + 6) * 2
  let monocytes := 2 + g (k1 + 7) * 8
  let lymphocytes := 20 + g (k1 + 8) * 25
  let alp := 30 + g (k1 + 9) * 100
  let direct_bilirubin := 1/10 + g (k1 + 10) * (4/10)
  let indirect_bilirubin := total_bilirubin - direct_bilirubin
  let total_proteins := 6 + g (k1 + 11) * 2
  let albumin := 7/2 + g (k1 + 12) * (3/2)
  let creatinine := 6/10 + g (k1 + 13) * (8/10)
  let urea := 10 + g (k1 + 14) * 30
  ([age, gender, residence, homemaker, student, professional, merchant,
    agriculture_livestock, various_jobs, unemployed, hospitalization_days,
    body_temperature, fever, headache, dizziness, loss_of_appetite, weakness,
    myalgias, arthralgias, eye_pain, hemorrhages, vomiting, abdominal_pain,
    chills, 0, 0, jaundice, 0, petechiae, rash, 0, 0, 0, hematocrit,
    hemoglobin, red_blood_cells, white_blood_cells, neutrophils, eosinophils,
    basophils, monocytes, lymphocytes, platelets, ast, alt, alp,
    total_bilirubin, direct_bilirubin, indirect_bilirubin, total_proteins,
    albumin, creatinine, urea], k1 + 15)

/-- The per-record loop of `generateSampleData`:
`disease = diseases[i] || floor(random * 3)` evaluates its right-hand side
(consuming a draw) exactly when `diseases[i]` is falsy, that is 0 or
out of range. -/
def genLoop (g : Nat → ℚ) (diseases : List Nat) :
    Nat → Nat → Nat → List (List ℚ) × List Nat
  | 0, _, _ => ([], [])
  | r + 1, i, k =>
    let dk : Nat × Nat :=
      if diseases.getD i 0 ≠ 0 then (diseases.getD i 0, k)
      else ((Rat.floor (g k * 3)).toNat, k + 1)
    let fk := genRecord g dk.2 dk.1
    let rest := genLoop g diseases r (i + 1) fk.2
    (fk.1 :: rest.1, dk.1 :: rest.2)

/-- `generateSampleData(numSamples)`: a class sequence of
`floor(numSamples/3)` copies of each class, shuffled, then the record
loop. -/
def generateSampleData (g : Nat → ℚ) (numSamples : Nat) : List (List ℚ) × List Nat :=
  let samplesPerClass := numSamples / 3
  let diseases0 := (List.range 3).flatMap (fun d => List.replicate samplesPerClass d)
  let s := fyShuffle g 0 diseases0 0
  genLoop g s.1 numSamples 0 s.2

/-- JS `Math.min(...column)`; the empty case (an infinity) is never hit on
the non-empty matrices the code runs on. -/
def jsMinL : List ℚ → ℚ
  | [] => 0
  | v :: vs => vs.foldl min v

/-- JS `Math.max(...column)`. -/
def jsMaxL : List ℚ → ℚ
  | [] => 0
  | v :: vs => vs.foldl max v

/-- Result of `normalizeFeatures`. -/
structure NormResult where
  normalized : List (List ℚ)
  minv : List ℚ
  maxv : List ℚ
deriving DecidableEq

/-- `normalizeFeatures`: per-column min/max over the matrix, then
`(v - min) / (max - min)` per entry, 0 for a degenerate column. -/
def normalizeFeatures (features : List (List ℚ)) : NormResult :=
  let numFeatures := (features.headD []).length
  let minv := (List.range numFeatures).map (fun i => jsMinL (features.map (fun r => r.getD i 0)))
  let maxv := (List.range numFeatures).map (fun i => jsMaxL (features.map (fun r => r.getD i 0)))
  let normalized := features.map (fun row =>
    row.mapIdx (fun i v =>
      let range := maxv.getD i 0 - minv.getD i 0
      if range = 0 then 0 else (v - minv.getD i 0) / range))
  ⟨normalized, minv, maxv⟩

/-- JS division on finite values: `none` models the `NaN` of `0/0`, the
only non-finite result reachable from the natural-number confusion
matrices this code divides over (numerators are zero whenever denominators
are). -/
def jdiv (a b : ℚ) : Option ℚ := if b = 0 then none else some (a / b)

/-- JS `x || 0`: `NaN` (and 0 itself) become 0. -/
def jsOrZero : Option ℚ → ℚ
  | none => 0
  | some q => q

/-- A 3x3 zero matrix (`Array(3).fill(0).map(() => Array(3).fill(0))`). -/
def zero3 : List (List Nat) := List.replicate 3 (List.replicate 3 0)

/-- Cell read `m[i][j]`. -/
def cmCell (m : List (List Nat)) (i j : Nat) : Nat := (m.getD i []).getD j 0

/-- Cell increment `m[a][p]++`. -/
def bumpCell (m : List (List Nat)) (a p : Nat) : List (List Nat) :=
  m.set a ((m.getD a []).set p (cmCell m a p + 1))

/-- `calculateConfusionMatrix(predictions, actuals)`:
`matrix[actuals[i]][predictions[i]]++` over the paired records. -/
def calculateConfusionMatrix (predictions actuals : List Nat) : List (List Nat) :=
  (predictions.zip actuals).foldl (fun m pa => bumpCell m pa.2 pa.1) zero3

/-- Result of `calculateMetrics`; `accuracy`, `precision` and `recall` are
plain JS divisions and can be `NaN`, while `f1Score` ends in `|| 0`. -/
structure MetricsOut where
  accuracy : Option ℚ
  precision : Option ℚ
  «recall» : Option ℚ
  f1Score : ℚ
deriving DecidableEq

/-- `calculateMetrics(confusionMatrix)`: the accumulation loop over
classes, then `accuracy = totalCorrect / totalSamples` (unguarded),
macro-averaged precision/recall (each per-class value guarded by `|| 0`)
and `f1 = 2pr/(p+r) || 0`. -/
def calculateMetrics (cm : List (List Nat)) : MetricsOut :=
  let numClasses := cm.length
  let idx := List.range numClasses
  let acc := idx.foldl
    (fun (a : Nat × Nat × ℚ × ℚ) i =>
      let tp := cmCell cm i i
      let fp := (idx.map (fun j => if j = i then 0 else cmCell cm j i)).sum
      let fn := (idx.map (fun j => if j = i then 0 else cmCell cm i j)).sum
      let rowSum := (idx.map (fun j => cmCell cm i j)).sum
      let precision := jsOrZero (jdiv (tp : ℚ) ((tp : ℚ) + (fp : ℚ)))
      let rec_i := jsOrZero (jdiv (tp : ℚ) ((tp : ℚ) + (fn : ℚ)))
      (a.1 + tp, a.2.1 + rowSum, a.2.2.1 + precision, a.2.2.2 + rec_i))
    (0, 0, 0, 0)
  let accuracy := jdiv (acc.1 : ℚ) (acc.2.1 : ℚ)
  let avgPrecision := jdiv acc.2.2.1 (numClasses : ℚ)
  let avgRecall := jdiv acc.2.2.2 (numClasses : ℚ)
  let f1 := jsOrZero
    (match avgPrecision, avgRecall with
     | some p, some r => jdiv (2 * p * r) (p + r)
     | _, _ => none)
  ⟨accuracy, avgPrecision, avgRecall, f1⟩

/-- The three disease names. -/
def DISEASE_LABELS : List (List Char) :=
  ["Dengue".toList, "Malaria".toList, "Leptospirosis".toList]

/-- The balanced class-name sequence built by the batch handler:
`floor(n/3)` names per class plus one extra for the first `n % 3`
classes. -/
def balancedClasses (n : Nat) : List (List Char) :=
  (List.range 3).flatMap
    (fun i => List.replicate (n / 3 + if i < n % 3 then 1 else 0) (DISEASE_LABELS.getD i []))

/-- JS `a || b` on an optionally-present string. -/
def jsOrS (a : Option (List Char)) (b : List Char) : List Char :=
  match a with
  | some s => if s.isEmpty then b else s
  | none => b

/-- The predicted labels the batch handler returns:
`balancedClasses[idx] || pred.disease` over the processed records, after
shuffling the balanced sequence.  `modelDisease idx` is the model-path
disease name for record `idx` (unconstrained here: it is the part the
handler overrides). -/
def batchPredictedLabels (g : Nat → ℚ) (n : Nat) (modelDisease : Nat → List Char) :
    List (List Char) :=
  let shuffled := (fyShuffle g [] (balancedClasses n) 0).1
  (List.range n).map (fun idx => jsOrS shuffled[idx]? (modelDisease idx))

/-- The batch handler's diagnosis map (twelve keys). -/
def diseaseMapFull (s : List Char) : Option Nat :=
  if s = "Dengue".toList ∨ s = "dengue".toList ∨ s = "DENGUE".toList ∨ s = "1".toList then
    some 0
  else if s = "Malaria".toList ∨ s = "malaria".toList ∨ s = "MALARIA".toList ∨ s = "2".toList then
    some 1
  else if s = "Leptospirosis".toList ∨ s = "leptospirosis".toList ∨
      s = "LEPTOSPIROSIS".toList ∨ s = "3".toList then
    some 2
  else none

/-- `convertedLabels`: the trimmed actual label through the map, `-1`
when unmapped. -/
def convertLabel (s : List Char) : Int :=
  match diseaseMapFull (jsTrim s) with
  | some m => (m : Int)
  | none => -1

/-- One step of the confusion-matrix accumulation of the batch handler:
look up both labels and increment `confusionMatrix[actualIdx][predictedIdx]`
only when the actual label mapped (`!== -1`) and the predicted label
mapped. -/
def bbcStep (m : List (List Nat)) (pa : List Char × Int) : List (List Nat) :=
  match diseaseMapFull pa.1 with
  | some pIdx => if pa.2 ≠ -1 then bumpCell m pa.2.toNat pIdx else m
  | none => m

/-- The confusion-matrix accumulation of the batch handler over the paired
records. -/
def buildBatchConfusion (preds actuals : List (List Char)) : List (List Nat) :=
  (preds.zip (actuals.map convertLabel)).foldl bbcStep zero3

/-- Sum of the nine cells of a 3x3 matrix. -/
def cellSum (m : List (List Nat)) : Nat :=
  ((List.range 3).map (fun i => ((List.range 3).map (fun j => cmCell m i j)).sum)).sum

/-- Temperature scaling of the single-prediction path of the first model
module: `p ↦ max(p, 0.001) ^ (1 / T)`. -/
noncomputable def scaleProbs (T : ℝ) (probs : List ℝ) : List ℝ :=
  probs.map (fun p => (max p 0.001) ^ ((1 : ℝ) / T))

/-- Renormalisation to sum 1. -/
noncomputable def renormProbs (l : List ℝ) : List ℝ := l.map (fun p => p / l.sum)

/-- The cyclic rotation applied before the argmax:
`[probs[(0+r)%3], probs[(1+r)%3], probs[(2+r)%3]]`. -/
def rotateProbs (r : Nat) (l : List ℝ) : List ℝ :=
  [l.getD ((0 + r) % 3) 0, l.getD ((1 + r) % 3) 0, l.getD ((2 + r) % 3) 0]

open Classical in
/-- The decision loop: scan for the strictly largest probability starting
from `maxProb = 0`, `predictedClass = 0`; ties keep the earlier index. -/
noncomputable def argmaxLoop (l : List ℝ) : ℝ × Nat :=
  l.enum.foldl (fun a pi => if pi.2 > a.1 then (pi.2, pi.1) else a) (0, 0)

/-- Calibration and decision of `predict` (first module): temperature
scaling with clamp, renormalisation, rotation by `r`, then the argmax
loop.  The first component is the reported confidence, the second the
predicted class. -/
noncomputable def predictDecision (T : ℝ) (r : Nat) (probs : List ℝ) : ℝ × Nat :=
  argmaxLoop (rotateProbs r (renormProbs (scaleProbs T probs)))

/-! ### Support lemmas -/

lemma ratFloor_eq_floor (q : ℚ) : Rat.floor q = ⌊q⌋ :=
  (Rat.floor_def' q).trans Rat.floor_def.symm

/-- A draw stream whose first two draws are 0 and the rest 1/2. -/
def gBad : Nat → ℚ := fun k => if k < 2 then 0 else 1/2

lemma splitCh_ne_nil (sep : Char) (l : List Char) : splitCh sep l ≠ [] := by
  cases l with
  | nil => simp [splitCh]
  | cons c cs =>
    by_cases h : c = sep <;> simp only [splitCh, h, if_true, if_false, reduceIte] <;>
      first
        | exact List.cons_ne_nil _ _
        | (cases hs : splitCh sep cs <;> exact List.cons_ne_nil _ _)

lemma splitCh_struct (sep : Char) (l : List Char) :
    splitCh sep l = l.takeWhile (· ≠ sep) ::
      (match l.dropWhile (· ≠ sep) with
       | [] => []
       | _ :: r => splitCh sep r) := by
  induction l with
  | nil => simp [splitCh]
  | cons c cs ih =>
    by_cases h : c = sep
    · subst h
      simp [splitCh, List.takeWhile_cons, List.dropWhile_cons]
    · have hne : (c ≠ sep) = True := by simp [h]
      simp only [splitCh, List.takeWhile_cons, List.dropWhile_cons, h, if_false, reduceIte]
      rw [ih]
      simp [h]

lemma mem_of_mem_splitCh {sep : Char} {l p : List Char} (hp : p ∈ splitCh sep l)
    {c : Char} (hc : c ∈ p) : c ∈ l := by
  induction l generalizing p with
  | nil =>
    simp [splitCh] at hp
    subst hp
    simp at hc
  | cons d cs ih =>
    by_cases h : d = sep
    · subst h
      simp only [splitCh, if_true, reduceIte, List.mem_cons] at hp
      rcases hp with rfl | hp
      · simp at hc
      · exact List.mem_cons_of_mem _ (ih hp hc)
    · simp only [splitCh, h, if_false, reduceIte] at hp
      rcases hs : splitCh sep cs with _ | ⟨q, qs⟩
      · exact absurd hs (splitCh_ne_nil sep cs)
      · rw [hs] at hp
        rcases List.mem_cons.mp hp with rfl | hp2
        · rcases List.mem_cons.mp hc with rfl | hc2
          · exact List.mem_cons_self _ _
          · exact List.mem_cons_of_mem _
              (ih (hs ▸ List.mem_cons_self q qs) hc2)
        · exact List.mem_cons_of_mem _
            (ih (hs ▸ List.mem_cons_of_mem q hp2) hc)

lemma csvScan_no_quotes (fuel : Nat) :
    ∀ l : List Char, l.length ≤ fuel → (∀ c ∈ l, c ≠ '"') →
      csvScan fuel l = (splitCh ',' l).filter (fun p => !p.isEmpty) := by
  induction fuel with
  | zero =>
    intro l hl _
    have hl' : l = [] := List.length_eq_zero.mp (Nat.le_zero.mp hl)
    subst hl'
    simp [csvScan, splitCh]
  | succ fuel ih =>
    intro l hl hq
    cases l with
    | nil => simp [csvScan, splitCh]
    | cons c cs =>
      by_cases hc : c = ','
      · subst hc
        simp only [csvScan, if_true, reduceIte]
        rw [ih cs (Nat.le_of_succ_le_succ hl) (fun d hd => hq d (List.mem_cons_of_mem _ hd))]
        simp [splitCh]
      · have hcq : c ≠ '"' := hq c (List.mem_cons_self _ _)
        simp only [csvScan, hc, hcq, if_false, reduceIte]
        rw [splitCh_struct]
        have htk : ((c :: cs).takeWhile (· ≠ ',')).isEmpty = false := by
          simp [List.takeWhile_cons, hc]
        rcases hrest : (c :: cs).dropWhile (· ≠ ',') with _ | ⟨d, r⟩
        · simp only [hrest]
          rw [List.filter_cons, htk]
          cases fuel <;> simp [csvScan]
        · simp only [hrest]
          rw [List.filter_cons, htk]
          have hsub : List.Sublist ((c :: cs).dropWhile (· ≠ ',')) (c :: cs) :=
            List.dropWhile_sublist _
          rw [hrest] at hsub
          have hd : d = ',' := by
            have hh := List.head?_dropWhile_not (fun x => decide (x ≠ ',')) (c :: cs)
            rw [hrest] at hh
            simpa using hh
          have hdlen : (d :: r).length ≤ fuel := by
            have h3 : ((c :: cs).takeWhile (· ≠ ',')).length + (d :: r).length
                = (c :: cs).length := by
              conv_rhs => rw [← List.takeWhile_append_dropWhile (fun x => decide (x ≠ ',')) (c :: cs)]
              rw [List.length_append, hrest]
            have h4 : 1 ≤ ((c :: cs).takeWhile (· ≠ ',')).length := by
              simp [List.takeWhile_cons, hc]
            have h2 : (c :: cs).length ≤ fuel + 1 := hl
            omega
          have hdq : ∀ e ∈ d :: r, e ≠ '"' := fun e he => hq e (hsub.mem he)
          rw [ih (d :: r) hdlen hdq]
          subst hd
          simp [splitCh]

lemma matchCells_no_quotes (l : List Char) (hq : ∀ c ∈ l, c ≠ '"') :
    matchCells l = (splitCh ',' l).filter (fun p => !p.isEmpty) :=
  csvScan_no_quotes l.length l le_rfl hq

lemma postCell_no_quote {q : List Char} (hne : q ≠ []) (hq : ∀ c ∈ q, c ≠ '"') :
    postCell q = jsTrim q := by
  rcases q with _ | ⟨c, cs⟩
  · exact absurd rfl hne
  · have : c ≠ '"' := hq c (List.mem_cons_self _ _)
    simp [postCell, List.head?, this]

/-! ### Claim theorems -/

/-- C1: on the valid draw stream `gBad` (all draws in `[0,1)`),
`generateSampleData 3` returns the labels `[1, 2, 1]`: class 0 appears 0
times instead of the expected `3 / 3 = 1`, because
`diseases[i] || Math.floor(Math.random() * 3)` re-randomises every record
whose shuffled class is the falsy value 0.  The feature-shape and
label-range parts of the claim hold, but the exact per-class count does
not. -/
theorem generateSampleData_misses_class_zero :
    (∀ k, 0 ≤ gBad k ∧ gBad k < 1)
    ∧ (generateSampleData gBad 3).2 = [1, 2, 1]
    ∧ (generateSampleData gBad 3).2.count 0 = 0 := by
  have hlab : (generateSampleData gBad 3).2 = [1, 2, 1] := by
    have hin : ((List.range 3).flatMap fun d => List.replicate (3/3) d) = [0, 1, 2] := by
      decide
    have hsh : fyShuffle gBad (0 : ℕ) [0, 1, 2] 0 = ([1, 2, 0], 2) := by
      simp [fyShuffle, fyAux, swapL, gBad, ratFloor_eq_floor]
    have hf32 : (Rat.floor ((2 : ℚ)⁻¹ * 3)).toNat = 1 := by
      have hv : ((2 : ℚ)⁻¹ * 3) = 3/2 := by norm_num
      have hfl : ⌊(3/2 : ℚ)⌋ = 1 := by
        rw [Int.floor_eq_iff]
        norm_num
      rw [hv, ratFloor_eq_floor, hfl]
      rfl
    simp only [generateSampleData, hin, hsh]
    simp [genLoop, genRecord, gBad, hf32]
  refine ⟨fun k => ?_, hlab, by rw [hlab]; decide⟩
  by_cases h : k < 2
  · simp [gBad, h]
  · simp only [gBad, h, if_false, reduceIte]
    norm_num

/-- C3 counterexample: on the confusion matrix of empty inputs the
returned accuracy is the `NaN` of the unguarded `0 / 0` (not 0 as the
claim states). -/
theorem calculateMetrics_empty_accuracy_nan :
    (calculateMetrics (calculateConfusionMatrix [] [])).accuracy = none := rfl

/-- C3 (amended): `calculateMetrics` on the all-zero matrix built from
empty predicted/actual sequences throws no error and returns 0 for
precision, recall and f1, but its accuracy is the `NaN` result of the
unguarded division `0 / 0`. -/
theorem calculateMetrics_empty_values :
    calculateMetrics (calculateConfusionMatrix [] []) =
      ⟨none, some 0, some 0, 0⟩ := by
  show calculateMetrics zero3 = _
  simp only [calculateMetrics, zero3, cmCell]
  norm_num [jdiv, jsOrZero, List.range_succ]

/-- C9: the delimited text of scenario 1 parses to the expected headers
and two data rows, and encoding those rows yields two feature vectors
whose gender column is `[1, 0]`, with labels `[0, 1]`. -/
theorem scenario1_parse_and_encode :
    parseCSV "age,gender,diagnosis\n30,M,dengue\n40,F,malaria\n".toList =
      Except.ok ⟨["age".toList, "gender".toList, "diagnosis".toList],
        [["30".toList, "M".toList, "dengue".toList],
         ["40".toList, "F".toList, "malaria".toList]]⟩
    ∧ (convertToTrainingData ["age".toList, "gender".toList, "diagnosis".toList]
        [["30".toList, "M".toList, "dengue".toList],
         ["40".toList, "F".toList, "malaria".toList]]).features.length = 2
    ∧ (convertToTrainingData ["age".toList, "gender".toList, "diagnosis".toList]
        [["30".toList, "M".toList, "dengue".toList],
         ["40".toList, "F".toList, "malaria".toList]]).features.map
          (fun f => f.getD 1 0) = [1, 0]
    ∧ (convertToTrainingData ["age".toList, "gender".toList, "diagnosis".toList]
        [["30".toList, "M".toList, "dengue".toList],
         ["40".toList, "F".toList, "malaria".toList]]).labels = [0, 1] :=
  ⟨rfl, rfl, rfl, rfl⟩

/-- C10: on any line without double quotes the cell scan returns exactly
the non-empty comma-separated fields (trimmed) — unquoted empty fields
are omitted, so a row can end up shorter than the header row.  In
particular `"40,,"` parses to the single cell `["40"]`, and a row of that
shape is then skipped by the cell-count filter of
`convertToTrainingData`. -/
theorem parseLine_omits_empty_fields :
    (∀ l : List Char, (∀ c ∈ l, c ≠ '"') →
        parseLine l = ((splitCh ',' l).filter (fun p => !p.isEmpty)).map jsTrim)
    ∧ parseLine "40,,".toList = ["40".toList]
    ∧ (convertToTrainingData ["age".toList, "gender".toList, "diagnosis".toList]
        [parseLine "40,,".toList]).rowCount = 0 := by
  refine ⟨fun l hq => ?_, by decide, by decide⟩
  rw [parseLine, matchCells_no_quotes l hq]
  refine List.map_congr_left (fun q hql => ?_)
  rw [List.mem_filter] at hql
  refine postCell_no_quote (fun hqe => ?_) (fun c hc => ?_)
  · rw [hqe] at hql
    simp at hql
  · exact hq c (mem_of_mem_splitCh hql.1 hc)

/-- C10 witness: the universal part of the previous theorem applied to
the concrete quote-free line `"40,,"`. -/
theorem parseLine_omits_empty_fields_witness :
    parseLine "40,,".toList =
      ((splitCh ',' "40,,".toList).filter (fun p => !p.isEmpty)).map jsTrim :=
  parseLine_omits_empty_fields.1 "40,,".toList (by decide)

lemma featureColumns_length : featureColumns.length = 53 := rfl

lemma encodeRow_length (headers row : List (List Char)) :
    (encodeRow headers row).length = 53 := by
  rw [encodeRow, List.length_map, featureColumns_length]

lemma convertRows_mem_features {headers : List (List Char)} {li : Option Nat}
    {rows : List (List (List Char))} {f : List ℚ}
    (hf : f ∈ (convertRows headers li rows).1) :
    ∃ row, f = encodeRow headers row := by
  induction rows with
  | nil => simp [convertRows] at hf
  | cons row rest ih =>
    by_cases hs : skipRow headers row
    · rw [show convertRows headers li (row :: rest) =
          convertRows headers li rest by simp [convertRows, hs]] at hf
      exact ih hf
    · simp only [convertRows, hs, if_false, reduceIte, Bool.false_eq_true,
        List.mem_cons] at hf
      rcases hf with rfl | hf
      · exact ⟨row, rfl⟩
      · exact ih hf

lemma convertRows_labels_length (headers : List (List Char)) (i : Nat)
    (rows : List (List (List Char))) :
    (convertRows headers (some i) rows).2.length = (convertRows headers (some i) rows).1.length := by
  induction rows with
  | nil => simp [convertRows]
  | cons row rest ih =>
    by_cases hs : skipRow headers row <;>
      simp only [convertRows, hs, if_true, if_false, reduceIte, Bool.false_eq_true,
        List.length_cons] <;>
      omega

/-- C5: for every headers/rows input, `convertToTrainingData` returns a
`rowCount` equal to the number of returned feature vectors, every feature
vector has exactly 53 entries (one per schema field, a schema field
missing from the headers encoding to 0), and when a `diagnosis` column is
present the labels sequence has the same length as the features
sequence. -/
theorem convertToTrainingData_shapes (headers : List (List Char))
    (rows : List (List (List Char))) :
    (convertToTrainingData headers rows).rowCount =
        (convertToTrainingData headers rows).features.length
    ∧ (∀ f ∈ (convertToTrainingData headers rows).features, f.length = 53)
    ∧ ((convertToTrainingData headers rows).hasLabels = true →
        (convertToTrainingData headers rows).labels.length =
          (convertToTrainingData headers rows).features.length)
    ∧ (∀ f ∈ (convertToTrainingData headers rows).features, ∀ cIdx < 53,
        findIdxCI headers (featureColumns.getD cIdx []) = none → f.getD cIdx 0 = 0) := by
  refine ⟨rfl, fun f hf => ?_, fun hl => ?_, fun f hf cIdx hc hnone => ?_⟩
  · obtain ⟨row, rfl⟩ := convertRows_mem_features hf
    exact encodeRow_length headers row
  · rcases hli : findIdxCI headers "diagnosis".toList with _ | i
    · simp only [convertToTrainingData, hli, Option.isSome_none] at hl
      exact absurd hl (by simp)
    · simp only [convertToTrainingData, hli]
      exact convertRows_labels_length headers i rows
  · obtain ⟨row, rfl⟩ := convertRows_mem_features hf
    have hcl : cIdx < featureColumns.length := by rw [featureColumns_length]; exact hc
    rw [encodeRow, List.getD_eq_getElem?_getD, List.getElem?_map,
      List.getElem?_eq_getElem hcl]
    have : featureColumns.getD cIdx [] = featureColumns[cIdx] :=
      List.getD_eq_getElem featureColumns [] hcl
    rw [this] at hnone
    simp [hnone]

/-- C5 witness: the shape theorem instantiated on the scenario-1 input,
with the labels-length consequence discharged concretely. -/
theorem convertToTrainingData_shapes_witness :
    (convertToTrainingData ["age".toList, "gender".toList, "diagnosis".toList]
        [["30".toList, "M".toList, "dengue".toList]]).labels.length =
      (convertToTrainingData ["age".toList, "gender".toList, "diagnosis".toList]
        [["30".toList, "M".toList, "dengue".toList]]).features.length :=
  (convertToTrainingData_shapes _ _).2.2.1 (by decide)

lemma foldl_min_le (vs : List ℚ) (a : ℚ) :
    vs.foldl min a ≤ a ∧ ∀ x ∈ vs, vs.foldl min a ≤ x := by
  induction vs generalizing a with
  | nil => simp
  | cons v vs ih =>
    have h := ih (min a v)
    refine ⟨h.1.trans (min_le_left a v), fun x hx => ?_⟩
    rcases List.mem_cons.mp hx with rfl | hx
    · exact h.1.trans (min_le_right a x)
    · exact h.2 x hx

lemma le_foldl_max (vs : List ℚ) (a : ℚ) :
    a ≤ vs.foldl max a ∧ ∀ x ∈ vs, x ≤ vs.foldl max a := by
  induction vs generalizing a with
  | nil => simp
  | cons v vs ih =>
    have h := ih (max a v)
    refine ⟨(le_max_left a v).trans h.1, fun x hx => ?_⟩
    rcases List.mem_cons.mp hx with rfl | hx
    · exact (le_max_right a x).trans h.1
    · exact h.2 x hx

lemma jsMinL_le {l : List ℚ} {x : ℚ} (hx : x ∈ l) : jsMinL l ≤ x := by
  cases l with
  | nil => simp at hx
  | cons v vs =>
    rcases List.mem_cons.mp hx with rfl | hx
    · exact (foldl_min_le vs x).1
    · exact (foldl_min_le vs v).2 x hx

lemma le_jsMaxL {l : List ℚ} {x : ℚ} (hx : x ∈ l) : x ≤ jsMaxL l := by
  cases l with
  | nil => simp at hx
  | cons v vs =>
    rcases List.mem_cons.mp hx with rfl | hx
    · exact (le_foldl_max vs x).1
    · exact (le_foldl_max vs v).2 x hx

lemma normalizeFeatures_minv_getD (X : List (List ℚ)) (i : Nat)
    (hi : i < (X.headD []).length) :
    (normalizeFeatures X).minv.getD i 0 = jsMinL (X.map (fun r => r.getD i 0)) := by
  have hlen : i < ((List.range (X.headD []).length).map
      (fun j => jsMinL (X.map (fun r => r.getD j 0)))).length := by
    simpa using hi
  rw [normalizeFeatures, List.getD_eq_getElem _ _ hlen, List.getElem_map,
    List.getElem_range]

lemma normalizeFeatures_maxv_getD (X : List (List ℚ)) (i : Nat)
    (hi : i < (X.headD []).length) :
    (normalizeFeatures X).maxv.getD i 0 = jsMaxL (X.map (fun r => r.getD i 0)) := by
  have hlen : i < ((List.range (X.headD []).length).map
      (fun j => jsMaxL (X.map (fun r => r.getD j 0)))).length := by
    simpa using hi
  rw [normalizeFeatures, List.getD_eq_getElem _ _ hlen, List.getElem_map,
    List.getElem_range]

lemma normalizeFeatures_entry (X : List (List ℚ)) (ri i : Nat) (hri : ri < X.length)
    (hi : i < (X.getD ri []).length) :
    ((normalizeFeatures X).normalized.getD ri []).getD i 0 =
      (if (normalizeFeatures X).maxv.getD i 0 - (normalizeFeatures X).minv.getD i 0 = 0
       then 0
       else ((X.getD ri []).getD i 0 - (normalizeFeatures X).minv.getD i 0) /
            ((normalizeFeatures X).maxv.getD i 0 - (normalizeFeatures X).minv.getD i 0)) := by
  have hmap : ri < (X.map (fun row => row.mapIdx (fun j v =>
      if (normalizeFeatures X).maxv.getD j 0 - (normalizeFeatures X).minv.getD j 0 = 0
      then 0
      else (v - (normalizeFeatures X).minv.getD j 0) /
           ((normalizeFeatures X).maxv.getD j 0 - (normalizeFeatures X).minv.getD j 0)))).length := by
    simpa using hri
  have hnorm : (normalizeFeatures X).normalized =
      X.map (fun row => row.mapIdx (fun j v =>
        if (normalizeFeatures X).maxv.getD j 0 - (normalizeFeatures X).minv.getD j 0 = 0
        then 0
        else (v - (normalizeFeatures X).minv.getD j 0) /
             ((normalizeFeatures X).maxv.getD j 0 - (normalizeFeatures X).minv.getD j 0))) := rfl
  rw [hnorm, List.getD_eq_getElem _ _ hmap, List.getElem_map]
  have hir : i < ((X[ri]).mapIdx (fun j v =>
      if (normalizeFeatures X).maxv.getD j 0 - (normalizeFeatures X).minv.getD j 0 = 0
      then 0
      else (v - (normalizeFeatures X).minv.getD j 0) /
           ((normalizeFeatures X).maxv.getD j 0 - (normalizeFeatures X).minv.getD j 0))).length := by
    rw [List.length_mapIdx]
    rw [List.getD_eq_getElem X [] hri] at hi
    exact hi
  rw [List.getD_eq_getElem _ _ hir, List.getElem_mapIdx]
  have hi2 : i < (X[ri]).length := by
    rw [List.getD_eq_getElem X [] hri] at hi
    exact hi
  have hx : (X.getD ri []).getD i 0 = X[ri][i] := by
    rw [List.getD_eq_getElem X [] hri, List.getD_eq_getElem _ _ hi2]
  rw [hx]

/-- C6: fitted min/max rescaling.  For a non-empty feature matrix with
rows of equal length, every normalised entry lies in `[0,1]`; where the
column is non-degenerate, an entry equal to the column minimum maps to 0
and an entry equal to the column maximum maps to 1; and every entry of a
degenerate column (`max = min`) maps to 0. -/
theorem normalizeFeatures_bounds (X : List (List ℚ)) (_hne : X ≠ [])
    (hlen : ∀ r ∈ X, r.length = (X.headD []).length) :
    ∀ ri < X.length, ∀ i < (X.headD []).length,
      (0 ≤ ((normalizeFeatures X).normalized.getD ri []).getD i 0
        ∧ ((normalizeFeatures X).normalized.getD ri []).getD i 0 ≤ 1)
      ∧ ((normalizeFeatures X).minv.getD i 0 < (normalizeFeatures X).maxv.getD i 0 →
          ((X.getD ri []).getD i 0 = (normalizeFeatures X).minv.getD i 0 →
            ((normalizeFeatures X).normalized.getD ri []).getD i 0 = 0)
          ∧ ((X.getD ri []).getD i 0 = (normalizeFeatures X).maxv.getD i 0 →
            ((normalizeFeatures X).normalized.getD ri []).getD i 0 = 1))
      ∧ ((normalizeFeatures X).maxv.getD i 0 = (normalizeFeatures X).minv.getD i 0 →
          ((normalizeFeatures X).normalized.getD ri []).getD i 0 = 0) := by
  intro ri hri i hi
  have hrow : (X.getD ri []).length = (X.headD []).length := by
    rw [List.getD_eq_getElem X [] hri]
    exact hlen _ (List.getElem_mem hri)
  have hi' : i < (X.getD ri []).length := by rw [hrow]; exact hi
  have hent := normalizeFeatures_entry X ri i hri hi'
  have hmn := normalizeFeatures_minv_getD X i hi
  have hmx := normalizeFeatures_maxv_getD X i hi
  set v := (X.getD ri []).getD i 0 with hv
  have hvcol : v ∈ X.map (fun r => r.getD i 0) := by
    rw [hv, List.getD_eq_getElem X [] hri]
    exact List.mem_map_of_mem _ (List.getElem_mem hri)
  have hminv : (normalizeFeatures X).minv.getD i 0 ≤ v := by
    rw [hmn]; exact jsMinL_le hvcol
  have hmaxv : v ≤ (normalizeFeatures X).maxv.getD i 0 := by
    rw [hmx]; exact le_jsMaxL hvcol
  set mn := (normalizeFeatures X).minv.getD i 0
  set mx := (normalizeFeatures X).maxv.getD i 0
  refine ⟨?_, fun hlt => ⟨fun hvmn => ?_, fun hvmx => ?_⟩, fun hdeg => ?_⟩
  · rw [hent]
    by_cases hr : mx - mn = 0
    · simp [hr]
    · have hpos : 0 < mx - mn := by
        rcases lt_or_eq_of_le (hminv.trans hmaxv) with h | h
        · linarith
        · exact absurd (by linarith) hr
      rw [if_neg hr]
      constructor
      · exact div_nonneg (by linarith) (le_of_lt hpos)
      · rw [div_le_one hpos]
        linarith
  · have hr : mx - mn ≠ 0 := by linarith
    rw [hent, if_neg hr, hvmn]
    simp
  · have hr : mx - mn ≠ 0 := by linarith
    rw [hent, if_neg hr, hvmx]
    exact div_self hr
  · rw [hent, if_pos (by linarith)]

/-- C6 witness: the normalisation bounds applied to the concrete matrix
`[[0, 5], [2, 5]]` at its first entry. -/
theorem normalizeFeatures_bounds_witness :
    0 ≤ ((normalizeFeatures [[0, 5], [2, 5]]).normalized.getD 0 []).getD 0 0
    ∧ ((normalizeFeatures [[0, 5], [2, 5]]).normalized.getD 0 []).getD 0 0 ≤ 1 :=
  (normalizeFeatures_bounds [[0, 5], [2, 5]] (by decide)
    (by intro r hr; fin_cases hr <;> rfl) 0 (by norm_num) 0 (by norm_num)).1

def mShape (m : List (List Nat)) : Prop := m.length = 3 ∧ ∀ r ∈ m, r.length = 3

lemma mShape_zero3 : mShape zero3 := by constructor <;> simp [zero3]

lemma diseaseMapFull_lt {s : List Char} {k : Nat} (h : diseaseMapFull s = some k) : k < 3 := by
  rw [diseaseMapFull] at h
  split at h <;> first
    | (injection h with h; omega)
    | (split at h <;> first
        | (injection h with h; omega)
        | (split at h <;> first
            | (injection h with h; omega)
            | exact absurd h (by simp)))

lemma mShape_bump {m : List (List Nat)} (hm : mShape m) {a : Nat} (p : Nat)
    (ha : a < 3) : mShape (bumpCell m a p) := by
  constructor
  · rw [bumpCell, List.length_set]
    exact hm.1
  · intro r hr
    rcases List.mem_or_eq_of_mem_set hr with h | h
    · exact hm.2 r h
    · subst h
      rw [List.length_set]
      have ha' : a < m.length := hm.1 ▸ ha
      rw [List.getD_eq_getElem m [] ha']
      exact hm.2 _ (List.getElem_mem ha')

lemma cmCell_bump {m : List (List Nat)} (hm : mShape m) {a p : Nat}
    (ha : a < 3) (hp : p < 3) :
    ∀ a2, a2 < 3 → ∀ p2, p2 < 3 →
      cmCell (bumpCell m a p) a2 p2 =
        cmCell m a2 p2 + if a2 = a ∧ p2 = p then 1 else 0 := by
  intro a2 _ p2 _
  have ham : a < m.length := hm.1 ▸ ha
  have hrow : (m.getD a []).length = 3 := by
    rw [List.getD_eq_getElem m [] ham]
    exact hm.2 _ (List.getElem_mem ham)
  simp only [bumpCell, cmCell]
  rw [List.getD_eq_getElem?_getD (List.set m a _), List.getElem?_set]
  by_cases haa : a = a2
  · subst haa
    rw [if_pos rfl, if_pos ham]
    simp only [Option.getD_some]
    rw [List.getD_eq_getElem?_getD ((m.getD a []).set p _), List.getElem?_set]
    by_cases hpp : p = p2
    · subst hpp
      rw [if_pos rfl, if_pos (by omega : p < (m.getD a []).length)]
      simp [cmCell]
    · rw [if_neg hpp, if_neg (fun h => hpp h.2.symm), ← List.getD_eq_getElem?_getD]
      simp
  · rw [if_neg haa, if_neg (fun h => haa h.1.symm), ← List.getD_eq_getElem?_getD]
    simp

lemma cellSum_bump {m : List (List Nat)} (hm : mShape m) {a p : Nat}
    (ha : a < 3) (hp : p < 3) :
    cellSum (bumpCell m a p) = cellSum m + 1 := by
  have hc := cmCell_bump hm ha hp
  have hr3 : List.range 3 = [0, 1, 2] := rfl
  simp only [cellSum, hr3, List.map_cons, List.map_nil, List.sum_cons, List.sum_nil]
  rw [hc 0 (by omega) 0 (by omega), hc 0 (by omega) 1 (by omega), hc 0 (by omega) 2 (by omega),
    hc 1 (by omega) 0 (by omega), hc 1 (by omega) 1 (by omega), hc 1 (by omega) 2 (by omega),
    hc 2 (by omega) 0 (by omega), hc 2 (by omega) 1 (by omega), hc 2 (by omega) 2 (by omega)]
  have : ∀ i j : Nat, i < 3 → j < 3 →
      (if i = a ∧ j = p then (1:Nat) else 0) = if i = a then if j = p then 1 else 0 else 0 := by
    intro i j _ _
    by_cases h1 : i = a <;> by_cases h2 : j = p <;> simp [h1, h2]
  rw [this 0 0 (by omega) (by omega), this 0 1 (by omega) (by omega), this 0 2 (by omega) (by omega),
    this 1 0 (by omega) (by omega), this 1 1 (by omega) (by omega), this 1 2 (by omega) (by omega),
    this 2 0 (by omega) (by omega), this 2 1 (by omega) (by omega), this 2 2 (by omega) (by omega)]
  interval_cases a <;> interval_cases p <;> simp <;> omega

lemma convertLabel_range (s : List Char) :
    convertLabel s = -1 ∨ (0 ≤ convertLabel s ∧ convertLabel s < 3) := by
  rcases h : diseaseMapFull (jsTrim s) with _ | k
  · simp [convertLabel, h]
  · have hk := diseaseMapFull_lt h
    simp only [convertLabel, h]
    right
    omega

lemma convertLabel_ne_neg1 (s : List Char) :
    (convertLabel s ≠ -1) ↔ (diseaseMapFull (jsTrim s)).isSome = true := by
  rcases h : diseaseMapFull (jsTrim s) with _ | k
  · simp [convertLabel, h]
  · simp only [convertLabel, h, Option.isSome_some, iff_true]
    omega

lemma bbcFold (pairs : List (List Char × Int)) :
    ∀ m, mShape m →
      (∀ pa ∈ pairs, pa.2 = -1 ∨ (0 ≤ pa.2 ∧ pa.2 < 3)) →
      mShape (pairs.foldl bbcStep m)
      ∧ (∀ a2, a2 < 3 → ∀ p2, p2 < 3 →
          cmCell (pairs.foldl bbcStep m) a2 p2 =
            cmCell m a2 p2 + pairs.countP
              (fun pa => decide (pa.2 = (a2 : Int)) &&
                         decide (diseaseMapFull pa.1 = some p2)))
      ∧ cellSum (pairs.foldl bbcStep m) =
          cellSum m + pairs.countP
            (fun pa => decide (pa.2 ≠ -1) && (diseaseMapFull pa.1).isSome) := by
  induction pairs with
  | nil => intro m hm _; simp [hm]
  | cons pa rest ih =>
    intro m hm hval
    have hval' : ∀ q ∈ rest, q.2 = -1 ∨ (0 ≤ q.2 ∧ q.2 < 3) :=
      fun q hq => hval q (List.mem_cons_of_mem _ hq)
    rw [List.foldl_cons]
    rcases hmap : diseaseMapFull pa.1 with _ | pIdx
    · have hstep : bbcStep m pa = m := by simp [bbcStep, hmap]
      rw [hstep]
      obtain ⟨s1, s2, s3⟩ := ih m hm hval'
      refine ⟨s1, fun a2 ha2 p2 hp2 => ?_, ?_⟩
      · rw [s2 a2 ha2 p2 hp2, List.countP_cons]
        simp [hmap]
      · rw [s3, List.countP_cons]
        simp [hmap]
    · by_cases hneg : pa.2 = -1
      · have hstep : bbcStep m pa = m := by simp [bbcStep, hmap, hneg]
        rw [hstep]
        obtain ⟨s1, s2, s3⟩ := ih m hm hval'
        refine ⟨s1, fun a2 ha2 p2 hp2 => ?_, ?_⟩
        · rw [s2 a2 ha2 p2 hp2, List.countP_cons]
          have : ¬(pa.2 = (a2 : Int)) := by omega
          simp [this]
        · rw [s3, List.countP_cons]
          simp [hneg]
      · have hr : 0 ≤ pa.2 ∧ pa.2 < 3 := by
          rcases hval pa (List.mem_cons_self _ _) with h | h
          · exact absurd h hneg
          · exact h
        have hstep : bbcStep m pa = bumpCell m pa.2.toNat pIdx := by
          simp [bbcStep, hmap, hneg]
        have hat : pa.2.toNat < 3 := by omega
        have hpt : pIdx < 3 := diseaseMapFull_lt hmap
        have hm' : mShape (bumpCell m pa.2.toNat pIdx) := mShape_bump hm pIdx hat
        rw [hstep]
        obtain ⟨s1, s2, s3⟩ := ih (bumpCell m pa.2.toNat pIdx) hm' hval'
        refine ⟨s1, fun a2 ha2 p2 hp2 => ?_, ?_⟩
        · rw [s2 a2 ha2 p2 hp2, cmCell_bump hm hat hpt a2 ha2 p2 hp2, List.countP_cons]
          have heq : (decide (pa.2 = (a2 : Int)) &&
              decide (diseaseMapFull pa.1 = some p2)) =
              (if a2 = pa.2.toNat ∧ p2 = pIdx then true else false) := by
            by_cases h1 : a2 = pa.2.toNat ∧ p2 = pIdx
            · have h1a := h1.1
              have h1b := h1.2
              have e1 : decide (pa.2 = (a2 : Int)) = true :=
                decide_eq_true (by omega)
              have e2 : decide (diseaseMapFull pa.1 = some p2) = true :=
                decide_eq_true (by rw [hmap, h1b])
              rw [if_pos h1, e1, e2]
              rfl
            · rw [if_neg h1]
              rcases Decidable.not_and_iff_or_not.mp h1 with h2 | h2
              · have e1 : decide (pa.2 = (a2 : Int)) = false :=
                  decide_eq_false (by omega)
                rw [e1, Bool.false_and]
              · have e2 : decide (diseaseMapFull pa.1 = some p2) = false := by
                  refine decide_eq_false ?_
                  rw [hmap]
                  intro hcon
                  injection hcon with hcon
                  exact h2 hcon.symm
                rw [e2, Bool.and_false]
          rw [heq]
          by_cases h1 : a2 = pa.2.toNat ∧ p2 = pIdx
          · rw [if_pos h1, if_pos h1]
            simp only [if_true, reduceIte]
            omega
          · rw [if_neg h1, if_neg h1]
            simp only [Bool.false_eq_true, if_false, reduceIte]
            omega
        · rw [s3, cellSum_bump hm hat hpt, List.countP_cons]
          have e1 : decide (pa.2 ≠ -1) = true := decide_eq_true hneg
          rw [e1, hmap]
          simp only [Option.isSome_some, Bool.and_self, if_true, reduceIte]
          omega

lemma getD_replicate_ite {α : Type} (n i : Nat) (x d : α) :
    (List.replicate n x).getD i d = if i < n then x else d := by
  rw [List.getD_eq_getElem?_getD, List.getElem?_replicate]
  by_cases h : i < n <;> simp [h]

lemma cmCell_zero3 (a p : Nat) : cmCell zero3 a p = 0 := by
  rw [cmCell, zero3, getD_replicate_ite]
  by_cases h : a < 3
  · rw [if_pos h, getD_replicate_ite]
    by_cases h2 : p < 3 <;> simp [h2]
  · rw [if_neg h]
    rfl

/-- C7: the batch confusion-matrix construction.  Over paired
predicted/actual label strings (all predicted labels resolvable, as they
are in the batch path where they are the three canonical names), every
resolvable pair increments exactly its `[actual][predicted]` cell — cell
`(a, p)` ends up holding the number of pairs resolving to `(a, p)` — and
unmapped actual labels are skipped without error; the nine-cell sum
equals the number of pairs whose actual label resolves to a known
class. -/
theorem buildBatchConfusion_spec (preds actuals : List (List Char))
    (hlen : actuals.length = preds.length)
    (hp : ∀ s ∈ preds, (diseaseMapFull s).isSome = true) :
    (∀ a2, a2 < 3 → ∀ p2, p2 < 3 →
      cmCell (buildBatchConfusion preds actuals) a2 p2 =
        (preds.zip actuals).countP
          (fun pa => decide (convertLabel pa.2 = (a2 : Int)) &&
                     decide (diseaseMapFull pa.1 = some p2)))
    ∧ cellSum (buildBatchConfusion preds actuals) =
        actuals.countP (fun s => (diseaseMapFull (jsTrim s)).isSome) := by
  have hzip : preds.zip (actuals.map convertLabel) =
      (preds.zip actuals).map (Prod.map id convertLabel) :=
    List.zip_map_right _ _ _
  have hval : ∀ pa ∈ (preds.zip actuals).map (Prod.map id convertLabel),
      pa.2 = -1 ∨ (0 ≤ pa.2 ∧ pa.2 < 3) := by
    intro pa hpa
    rw [List.mem_map] at hpa
    obtain ⟨q, _, rfl⟩ := hpa
    exact convertLabel_range q.2
  obtain ⟨_, s2, s3⟩ := bbcFold ((preds.zip actuals).map (Prod.map id convertLabel))
    zero3 mShape_zero3 hval
  constructor
  · intro a2 ha2 p2 hp2
    rw [buildBatchConfusion, hzip, s2 a2 ha2 p2 hp2, cmCell_zero3, List.countP_map,
      Nat.zero_add]
    refine List.countP_congr (fun pa _ => ?_)
    rcases pa with ⟨s1, t1⟩
    simp [Prod.map]
  · rw [buildBatchConfusion, hzip, s3, List.countP_map]
    have hz : cellSum zero3 = 0 := rfl
    rw [hz, Nat.zero_add]
    have hcong : ∀ pa ∈ preds.zip actuals,
        ((fun pa : List Char × Int => decide (pa.2 ≠ -1) && (diseaseMapFull pa.1).isSome) ∘
          Prod.map id convertLabel) pa = true ↔
        ((fun s => (diseaseMapFull (jsTrim s)).isSome) ∘ Prod.snd) pa = true := by
      intro pa hpa
      rcases pa with ⟨s1, t1⟩
      have hs1 : (diseaseMapFull s1).isSome = true := hp s1 (List.of_mem_zip hpa).1
      simp only [Function.comp_apply, Prod.map, id, hs1, Bool.and_true,
        decide_eq_true_eq]
      exact convertLabel_ne_neg1 t1
    rw [List.countP_congr hcong, ← List.countP_map,
      List.map_snd_zip preds actuals (le_of_eq hlen)]

/-- C7 witness: the cell-sum consequence instantiated on one resolvable
pair. -/
theorem buildBatchConfusion_spec_witness :
    cellSum (buildBatchConfusion ["Dengue".toList] ["malaria".toList]) =
      (["malaria".toList]).countP (fun s => (diseaseMapFull (jsTrim s)).isSome) :=
  (buildBatchConfusion_spec ["Dengue".toList] ["malaria".toList] rfl (by decide)).2

lemma count_swapL {α : Type} [BEq α] [LawfulBEq α] (d : α) (l : List α) (i j : Nat)
    (hi : i < l.length) (hj : j < l.length) (v : α) :
    (swapL d l i j).count v = l.count v := by
  have hbi : l[i] = v → 1 ≤ l.count v := fun h =>
    List.count_pos_iff.mpr (h ▸ List.getElem_mem hi)
  have hbj : l[j] = v → 1 ≤ l.count v := fun h =>
    List.count_pos_iff.mpr (h ▸ List.getElem_mem hj)
  have hjm : j < (l.set i (l.getD j d)).length := by
    rw [List.length_set]
    exact hj
  rw [swapL, List.count_set _ _ _ _ hjm, List.count_set _ _ _ _ hi]
  simp only [List.getElem_set]
  simp only [List.getD_eq_getElem l d hj, List.getD_eq_getElem l d hi]
  by_cases hij : i = j
  · subst hij
    simp only [if_pos rfl]
    by_cases h1 : l[i] = v
    · have b1 : (l[i] == v) = true := by simp [h1]
      have c1 := hbi h1
      simp only [b1, if_true, reduceIte]
      omega
    · have b1 : (l[i] == v) = false := by simp [h1]
      simp only [b1, Bool.false_eq_true, if_false, reduceIte]
      omega
  · simp only [hij, if_false, reduceIte]
    by_cases h1 : l[i] = v <;> by_cases h2 : l[j] = v
    · have b1 : (l[i] == v) = true := by simp [h1]
      have b2 : (l[j] == v) = true := by simp [h2]
      have c1 := hbi h1
      simp only [b1, b2, if_true, reduceIte]
      omega
    · have b1 : (l[i] == v) = true := by simp [h1]
      have b2 : (l[j] == v) = false := by simp [h2]
      have c1 := hbi h1
      simp only [b1, b2, if_true, Bool.false_eq_true, if_false, reduceIte]
      omega
    · have b1 : (l[i] == v) = false := by simp [h1]
      have b2 : (l[j] == v) = true := by simp [h2]
      have c2 := hbj h2
      simp only [b1, b2, if_true, Bool.false_eq_true, if_false, reduceIte]
      omega
    · have b1 : (l[i] == v) = false := by simp [h1]
      have b2 : (l[j] == v) = false := by simp [h2]
      simp only [b1, b2, Bool.false_eq_true, if_false, reduceIte]
      omega

lemma length_swapL {α : Type} (d : α) (l : List α) (i j : Nat) :
    (swapL d l i j).length = l.length := by
  rw [swapL, List.length_set, List.length_set]

lemma fyAux_invariant {α : Type} [BEq α] [LawfulBEq α] (g : Nat → ℚ) (d : α)
    (hg : ∀ n, 0 ≤ g n ∧ g n < 1) :
    ∀ i l k, (i = 0 ∨ i < l.length) →
      ((fyAux g d i l k).1.length = l.length
        ∧ ∀ v, (fyAux g d i l k).1.count v = l.count v) := by
  intro i
  induction i with
  | zero => intro l k _; exact ⟨rfl, fun _ => rfl⟩
  | succ im ih =>
    intro l k hb
    have hil : im + 1 < l.length := by
      rcases hb with h | h
      · exact absurd h (Nat.succ_ne_zero im)
      · exact h
    have hq0 : (0 : ℚ) ≤ g k * (((im + 1 : Nat) : ℚ) + 1) :=
      mul_nonneg (hg k).1 (by positivity)
    have hqlt : g k * (((im + 1 : Nat) : ℚ) + 1) < ((im + 2 : Nat) : ℚ) := by
      have h1 : g k * (((im + 1 : Nat) : ℚ) + 1) < 1 * (((im + 1 : Nat) : ℚ) + 1) :=
        mul_lt_mul_of_pos_right (hg k).2 (by positivity)
      rw [one_mul] at h1
      have h2 : (((im + 1 : Nat) : ℚ) + 1) = ((im + 2 : Nat) : ℚ) := by push_cast; ring
      exact h1.trans_eq h2
    have hjb : (Rat.floor (g k * (((im + 1 : Nat) : ℚ) + 1))).toNat < l.length := by
      rw [ratFloor_eq_floor]
      have hfl : ⌊g k * (((im + 1 : Nat) : ℚ) + 1)⌋ < ((im + 2 : Nat) : ℤ) := by
        rw [Int.floor_lt]
        exact_mod_cast hqlt
      have hfl0 : (0 : ℤ) ≤ ⌊g k * (((im + 1 : Nat) : ℚ) + 1)⌋ :=
        Int.floor_nonneg.mpr hq0
      omega
    rw [fyAux]
    obtain ⟨ihl, ihc⟩ := ih
      (swapL d l (im + 1) (Rat.floor (g k * (((im + 1 : Nat) : ℚ) + 1))).toNat)
      (k + 1) (by rw [length_swapL]; omega)
    refine ⟨?_, fun v => ?_⟩
    · rw [ihl, length_swapL]
    · rw [ihc v, count_swapL d l (im + 1) _ hil hjb]

lemma balancedClasses_length (n : Nat) : (balancedClasses n).length = n := by
  have hr3 : List.range 3 = [0, 1, 2] := rfl
  simp only [balancedClasses, hr3, List.flatMap_cons, List.flatMap_nil,
    List.length_append, List.length_replicate, List.length_nil]
  have hm : n % 3 < 3 := Nat.mod_lt n (by omega)
  split_ifs <;> omega

lemma balancedClasses_count (n : Nat) (c : Nat) (hc : c < 3) :
    (balancedClasses n).count (DISEASE_LABELS.getD c []) =
      n / 3 + (if c < n % 3 then 1 else 0) := by
  have hr3 : List.range 3 = [0, 1, 2] := rfl
  simp only [balancedClasses, hr3, List.flatMap_cons, List.flatMap_nil,
    List.count_append, List.count_replicate, List.append_nil]
  interval_cases c <;> simp [DISEASE_LABELS]

lemma balancedClasses_mem_ne_empty (n : Nat) {x : List Char}
    (hx : x ∈ balancedClasses n) : x.isEmpty = false := by
  have hr3 : List.range 3 = [0, 1, 2] := rfl
  simp only [balancedClasses, hr3, List.flatMap_cons, List.flatMap_nil,
    List.mem_append, List.mem_replicate, List.append_nil] at hx
  rcases hx with ⟨_, rfl⟩ | ⟨_, rfl⟩ | ⟨_, rfl⟩ <;> rfl

lemma map_range_jsOrS (l : List (List Char)) :
    ∀ md : Nat → List Char, (∀ x ∈ l, x.isEmpty = false) →
      (List.range l.length).map (fun idx => jsOrS l[idx]? (md idx)) = l := by
  induction l with
  | nil => intro md _; rfl
  | cons a t ih =>
    intro md hne
    rw [List.length_cons, List.range_succ_eq_map, List.map_cons, List.map_map]
    have h0 : jsOrS (a :: t)[0]? (md 0) = a := by
      rw [List.getElem?_cons_zero, jsOrS, hne a (List.mem_cons_self _ _)]
      rfl
    rw [h0]
    congr 1
    have hcomp : ((fun idx => jsOrS (a :: t)[idx]? (md idx)) ∘ Nat.succ) =
        (fun idx => jsOrS t[idx]? (md (idx + 1))) := by
      funext idx
      simp only [Function.comp_apply, Nat.succ_eq_add_one, List.getElem?_cons_succ]
    rw [hcomp]
    exact ih (fun idx => md (idx + 1)) (fun x hx => hne x (List.mem_cons_of_mem _ hx))

/-- C2: the predicted labels the batch handler returns are forced to a
balanced distribution.  For any valid draw streams and any model-path
outputs (the per-record disease names, which may depend on the features
arbitrarily), each class name is predicted exactly
`floor(n/3) + (1 if class index < n mod 3)` times, so two batch runs over
the same number of rows but different feature values always show the same
per-class counts. -/
theorem batchPredictedLabels_balanced (g g2 : Nat → ℚ)
    (hg : ∀ k, 0 ≤ g k ∧ g k < 1) (hg2 : ∀ k, 0 ≤ g2 k ∧ g2 k < 1)
    (n : Nat) (md md2 : Nat → List Char) (c : Nat) (hc : c < 3) :
    (batchPredictedLabels g n md).count (DISEASE_LABELS.getD c []) =
      n / 3 + (if c < n % 3 then 1 else 0)
    ∧ (batchPredictedLabels g n md).count (DISEASE_LABELS.getD c []) =
      (batchPredictedLabels g2 n md2).count (DISEASE_LABELS.getD c []) := by
  suffices h : ∀ g : Nat → ℚ, (∀ k, 0 ≤ g k ∧ g k < 1) → ∀ md : Nat → List Char,
      (batchPredictedLabels g n md).count (DISEASE_LABELS.getD c []) =
        n / 3 + (if c < n % 3 then 1 else 0) by
    exact ⟨h g hg md, (h g hg md).trans (h g2 hg2 md2).symm⟩
  intro g hg md
  have hbound : (balancedClasses n).length - 1 = 0 ∨
      (balancedClasses n).length - 1 < (balancedClasses n).length := by
    omega
  obtain ⟨hlen, hcnt⟩ := fyAux_invariant g [] hg ((balancedClasses n).length - 1)
    (balancedClasses n) 0 hbound
  have hslen : (fyShuffle g [] (balancedClasses n) 0).1.length = n := by
    rw [fyShuffle, hlen, balancedClasses_length]
  have hmem : ∀ x ∈ (fyShuffle g [] (balancedClasses n) 0).1, x.isEmpty = false := by
    intro x hx
    have hpos : 0 < (fyShuffle g [] (balancedClasses n) 0).1.count x :=
      List.count_pos_iff.mpr hx
    rw [fyShuffle, hcnt x] at hpos
    exact balancedClasses_mem_ne_empty n (List.count_pos_iff.mp hpos)
  have hmap := map_range_jsOrS (fyShuffle g [] (balancedClasses n) 0).1 md hmem
  rw [hslen] at hmap
  simp only [batchPredictedLabels]
  rw [hmap]
  rw [fyShuffle]
  rw [hcnt]
  rw [balancedClasses_count n c hc]

/-- C2 witness: the balance theorem instantiated at the constant-zero
stream, four records, and an arbitrary constant model output. -/
theorem batchPredictedLabels_balanced_witness :
    (batchPredictedLabels (fun _ => 0) 4 (fun _ => "Dengue".toList)).count
        (DISEASE_LABELS.getD 0 []) = 4 / 3 + (if 0 < 4 % 3 then 1 else 0) :=
  (batchPredictedLabels_balanced (fun _ => 0) (fun _ => 0)
    (fun _ => ⟨le_refl 0, by norm_num⟩) (fun _ => ⟨le_refl 0, by norm_num⟩)
    4 (fun _ => "Dengue".toList) (fun _ => "Dengue".toList) 0 (by norm_num)).1

/-- The non-blank lines of the raw input text, as the claim counts them:
split on line breaks, keep the lines that are non-blank after trimming
(no whole-content pre-trim; a trailing `\r` on a line is whitespace and
does not affect blankness). -/
def rawNonBlankLines (s : List Char) : List (List Char) :=
  (splitCh '\n' s).filter (fun l => !blankLine l)

/-- The trimmed non-blank lines, the quantity invariant under the
parser's whole-content pre-trim. -/
def trimmedNB (s : List Char) : List (List Char) :=
  ((splitCh '\n' s).filter (fun l => !blankLine l)).map jsTrim

lemma jsTrim_cons_ws {c : Char} (hc : wsChar c = true) (l : List Char) :
    jsTrim (c :: l) = jsTrim l := by
  rw [jsTrim, jsTrim, trimL, trimL, List.dropWhile_cons, hc]
  rfl

lemma trimR_append (l : List Char) (a : Char) :
    trimR (l ++ [a]) = if wsChar a then trimR l else l ++ [a] := by
  rw [trimR, List.reverse_append, List.reverse_singleton, List.singleton_append,
    List.dropWhile_cons]
  rcases ha : wsChar a
  · simp only [Bool.false_eq_true, if_false, reduceIte, List.reverse_cons,
      List.reverse_reverse]
  · simp only [if_true, reduceIte]
    rfl

lemma jsTrim_append_ws {c : Char} (hc : wsChar c = true) (l : List Char) :
    jsTrim (l ++ [c]) = jsTrim l := by
  rw [jsTrim, jsTrim, trimL, trimL, List.dropWhile_append]
  by_cases h : (List.dropWhile wsChar l).isEmpty
  · rw [if_pos h]
    have h2 : List.dropWhile wsChar [c] = [] := by
      rw [show [c] = c :: [] from rfl, List.dropWhile_cons, hc]
      rfl
    rw [h2]
    have h3 : List.dropWhile wsChar l = [] := by
      rcases he : List.dropWhile wsChar l with _ | _
      · rfl
      · rw [he] at h
        simp at h
    rw [h3]
  · rw [if_neg h, trimR_append, if_pos hc]

lemma jsTrim_dropCR (l : List Char) : jsTrim (dropCR l) = jsTrim l := by
  rw [dropCR]
  rcases hr : l.reverse with _ | ⟨c, r⟩
  · rfl
  · show jsTrim (if c = '\r' then r.reverse else l) = jsTrim l
    by_cases hc : c = '\r'
    · rw [if_pos hc]
      have hl : l = r.reverse ++ [c] := by
        have h2 := congrArg List.reverse hr
        rw [List.reverse_reverse] at h2
        rw [h2, List.reverse_cons]
      conv_rhs => rw [hl]
      rw [jsTrim_append_ws (by rw [hc]; decide) r.reverse]
    · rw [if_neg hc]

lemma splitCh_append_last (sep c : Char) (t : List Char) :
    splitCh sep (t ++ [c]) =
      if c = sep then splitCh sep t ++ [[]]
      else (splitCh sep t).dropLast ++ [((splitCh sep t).getLastD []) ++ [c]] := by
  induction t with
  | nil =>
    by_cases hc : c = sep
    · simp [splitCh, hc]
    · simp [splitCh, hc]
  | cons a t ih =>
    by_cases hasep : a = sep
    · subst hasep
      rw [List.cons_append]
      by_cases hc : c = a
      · rw [if_pos hc]
        simp only [splitCh, if_pos rfl]
        rw [ih, if_pos hc]
        rfl
      · rw [if_neg hc]
        simp only [splitCh, if_pos rfl]
        rw [ih, if_neg hc]
        rcases hs : splitCh a t with _ | ⟨p, ps⟩
        · exact absurd hs (splitCh_ne_nil a t)
        · simp
    · rw [List.cons_append]
      by_cases hc : c = sep
      · rw [if_pos hc]
        simp only [splitCh, hasep, if_false, reduceIte]
        rw [ih, if_pos hc]
        rcases hs : splitCh sep t with _ | ⟨p, ps⟩
        · exact absurd hs (splitCh_ne_nil sep t)
        · simp
      · rw [if_neg hc]
        simp only [splitCh, hasep, if_false, reduceIte]
        rw [ih, if_neg hc]
        rcases hs : splitCh sep t with _ | ⟨p, ps⟩
        · exact absurd hs (splitCh_ne_nil sep t)
        · rcases ps with _ | ⟨q, qs⟩
          · simp
          · simp [List.dropLast_cons_of_ne_nil]

lemma blankLine_eq_of_jsTrim_eq {l1 l2 : List Char} (h : jsTrim l1 = jsTrim l2) :
    blankLine l1 = blankLine l2 := by
  rw [blankLine, blankLine, h]

lemma dropLast_append_getLastD {α : Type} (L : List α) (d : α) (h : L ≠ []) :
    L.dropLast ++ [L.getLastD d] = L := by
  rw [List.getLastD_eq_getLast?, List.getLast?_eq_getLast L h, Option.getD_some]
  exact List.dropLast_append_getLast h

lemma trimmedNB_cons_ws {c : Char} (hc : wsChar c = true) (s : List Char) :
    trimmedNB (c :: s) = trimmedNB s := by
  by_cases hnl : c = '\n'
  · subst hnl
    rw [trimmedNB, trimmedNB,
      show splitCh '\n' ('\n' :: s) = [] :: splitCh '\n' s by
        rw [splitCh, if_pos rfl]]
    rw [List.filter_cons]
    have hb : (!blankLine ([] : List Char)) = false := rfl
    rw [hb]
    simp
  · rw [trimmedNB, trimmedNB]
    rcases hs : splitCh '\n' s with _ | ⟨p, ps⟩
    · exact absurd hs (splitCh_ne_nil '\n' s)
    · rw [show splitCh '\n' (c :: s) = (c :: p) :: ps by
        rw [splitCh, if_neg hnl, hs]]
      have hjt : jsTrim (c :: p) = jsTrim p := jsTrim_cons_ws hc p
      rw [List.filter_cons, List.filter_cons, blankLine_eq_of_jsTrim_eq hjt]
      by_cases hb : (!blankLine p) = true
      · rw [hb, if_pos rfl, if_pos rfl, List.map_cons, List.map_cons, hjt]
      · rw [Bool.not_eq_true] at hb
        rw [hb]
        simp

lemma trimmedNB_append_ws {c : Char} (hc : wsChar c = true) (s : List Char) :
    trimmedNB (s ++ [c]) = trimmedNB s := by
  by_cases hnl : c = '\n'
  · rw [trimmedNB, trimmedNB, splitCh_append_last, if_pos hnl, List.filter_append]
    have hb : List.filter (fun l => !blankLine l) [([] : List Char)] = [] := rfl
    rw [hb, List.append_nil]
  · rw [trimmedNB, trimmedNB, splitCh_append_last, if_neg hnl]
    have hne := splitCh_ne_nil '\n' s
    have hjt : jsTrim ((splitCh '\n' s).getLastD [] ++ [c]) =
        jsTrim ((splitCh '\n' s).getLastD []) := jsTrim_append_ws hc _
    conv_rhs =>
      rw [← dropLast_append_getLastD (splitCh '\n' s) [] hne]
    rw [List.filter_append, List.filter_append, List.map_append, List.map_append]
    congr 1
    rw [List.filter_cons, List.filter_cons, List.filter_nil,
      blankLine_eq_of_jsTrim_eq hjt]
    by_cases hb : (!blankLine ((splitCh '\n' s).getLastD [])) = true
    · rw [hb, if_pos rfl, if_pos rfl, List.map_cons, List.map_cons, hjt]
    · rw [Bool.not_eq_true] at hb
      rw [hb]
      simp

lemma trimmedNB_trimL (s : List Char) : trimmedNB (trimL s) = trimmedNB s := by
  induction s with
  | nil => rfl
  | cons c t ih =>
    by_cases hc : wsChar c
    · rw [trimL, List.dropWhile_cons, hc, if_pos rfl]
      rw [show List.dropWhile wsChar t = trimL t from rfl, ih]
      exact (trimmedNB_cons_ws hc t).symm
    · rw [trimL, List.dropWhile_cons,
        show wsChar c = false from Bool.not_eq_true _ ▸ hc]
      rfl

lemma trimmedNB_trimR (s : List Char) : trimmedNB (trimR s) = trimmedNB s := by
  induction s using List.reverseRecOn with
  | nil => rfl
  | append_singleton l a ih =>
    rw [trimR_append]
    by_cases ha : wsChar a
    · rw [if_pos ha, ih, trimmedNB_append_ws ha]
    · rw [if_neg ha]

lemma trimmedNB_jsTrim (s : List Char) : trimmedNB (jsTrim s) = trimmedNB s := by
  rw [jsTrim, trimmedNB_trimR, trimmedNB_trimL]

lemma csvLines_eq (c : List Char) :
    csvLines c = (List.filter (fun l => !blankLine l)
      (splitCh '\n' (jsTrim c))).map dropCR := by
  rw [csvLines, splitLines, List.filter_map]
  congr 1
  refine List.filter_congr (fun l _ => ?_)
  simp only [Function.comp_apply]
  rw [blankLine_eq_of_jsTrim_eq (jsTrim_dropCR l)]

lemma csvLines_length (c : List Char) :
    (csvLines c).length = (rawNonBlankLines c).length := by
  rw [csvLines_eq, List.length_map]
  have h1 : (List.filter (fun l => !blankLine l) (splitCh '\n' (jsTrim c))).length =
      (trimmedNB (jsTrim c)).length := by
    rw [trimmedNB, List.length_map]
  rw [h1, trimmedNB_jsTrim, trimmedNB, List.length_map, rawNonBlankLines]

lemma csvLines_map_jsTrim (c : List Char) :
    (csvLines c).map jsTrim = (rawNonBlankLines c).map jsTrim := by
  rw [csvLines_eq, List.map_map]
  have h1 : (List.filter (fun l => !blankLine l) (splitCh '\n' (jsTrim c))).map
      (jsTrim ∘ dropCR) =
      (List.filter (fun l => !blankLine l) (splitCh '\n' (jsTrim c))).map jsTrim := by
    refine List.map_congr_left (fun l _ => ?_)
    simp only [Function.comp_apply]
    exact jsTrim_dropCR l
  rw [h1, show (List.filter (fun l => !blankLine l)
      (splitCh '\n' (jsTrim c))).map jsTrim = trimmedNB (jsTrim c) from rfl,
    trimmedNB_jsTrim, trimmedNB, rawNonBlankLines]

/-- The headers produced from a line: comma-split, each cell trimmed. -/
def headersOf (l : List Char) : List (List Char) := (splitCh ',' l).map jsTrim

lemma ws_ne_comma {c : Char} (hc : wsChar c = true) : c ≠ ',' := by
  intro h
  subst h
  exact absurd hc (by decide)

lemma headersOf_cons_ws {c : Char} (hc : wsChar c = true) (l : List Char) :
    headersOf (c :: l) = headersOf l := by
  rcases hs : splitCh ',' l with _ | ⟨p, ps⟩
  · exact absurd hs (splitCh_ne_nil ',' l)
  · rw [headersOf, headersOf,
      show splitCh ',' (c :: l) = (c :: p) :: ps by
        rw [splitCh, if_neg (ws_ne_comma hc), hs],
      hs, List.map_cons, List.map_cons, jsTrim_cons_ws hc]

lemma headersOf_append_ws {c : Char} (hc : wsChar c = true) (l : List Char) :
    headersOf (l ++ [c]) = headersOf l := by
  rw [headersOf, headersOf, splitCh_append_last, if_neg (ws_ne_comma hc)]
  have hne := splitCh_ne_nil ',' l
  conv_rhs => rw [← dropLast_append_getLastD (splitCh ',' l) [] hne]
  rw [List.map_append, List.map_append, List.map_cons, List.map_cons,
    jsTrim_append_ws hc]

lemma headersOf_trimL (s : List Char) : headersOf (trimL s) = headersOf s := by
  induction s with
  | nil => rfl
  | cons c t ih =>
    by_cases hc : wsChar c
    · rw [trimL, List.dropWhile_cons, hc, if_pos rfl]
      rw [show List.dropWhile wsChar t = trimL t from rfl, ih]
      exact (headersOf_cons_ws hc t).symm
    · rw [trimL, List.dropWhile_cons,
        show wsChar c = false from Bool.not_eq_true _ ▸ hc]
      rfl

lemma headersOf_trimR (s : List Char) : headersOf (trimR s) = headersOf s := by
  induction s using List.reverseRecOn with
  | nil => rfl
  | append_singleton l a ih =>
    rw [trimR_append]
    by_cases ha : wsChar a
    · rw [if_pos ha, ih, headersOf_append_ws ha]
    · rw [if_neg ha]

lemma headersOf_jsTrim (s : List Char) : headersOf (jsTrim s) = headersOf s := by
  rw [jsTrim, headersOf_trimR, headersOf_trimL]

lemma headD_map_jsTrim {A B : List (List Char)} (h : A.map jsTrim = B.map jsTrim) :
    jsTrim (A.headD []) = jsTrim (B.headD []) := by
  rcases A with _ | ⟨a, as⟩ <;> rcases B with _ | ⟨b, bs⟩
  · rfl
  · simp at h
  · simp at h
  · simp only [List.map_cons, List.cons.injEq] at h
    exact h.1

/-- C8: `parseCSV` fails with the `MalformedInput` message exactly when
the input text has fewer than two non-blank lines; with at least two it
succeeds, the headers are the first non-blank line of the raw text split
on commas with each cell trimmed, and there is one data row per remaining
non-blank line. -/
theorem parseCSV_malformed_iff (c : List Char) :
    ((rawNonBlankLines c).length < 2 → parseCSV c = Except.error csvErrorMsg)
    ∧ (2 ≤ (rawNonBlankLines c).length →
        parseCSV c = Except.ok
          ⟨headersOf ((rawNonBlankLines c).headD []),
           ((csvLines c).drop 1).map parseLine⟩
        ∧ (((csvLines c).drop 1).map parseLine).length =
            (rawNonBlankLines c).length - 1) := by
  have hl := csvLines_length c
  constructor
  · intro h2
    simp only [parseCSV]
    rw [if_pos (by omega)]
  · intro h2
    simp only [parseCSV]
    rw [if_neg (by omega)]
    refine ⟨?_, ?_⟩
    · have hhd : headersOf ((csvLines c).headD []) =
          headersOf ((rawNonBlankLines c).headD []) := by
        rw [← headersOf_jsTrim ((csvLines c).headD []),
          headD_map_jsTrim (csvLines_map_jsTrim c),
          headersOf_jsTrim]
      rw [show (splitCh ',' ((csvLines c).headD [])).map jsTrim =
          headersOf ((csvLines c).headD []) from rfl, hhd]
    · rw [List.length_map, List.length_drop, hl]

/-- C8 witness: the malformed branch applied to a one-line input. -/
theorem parseCSV_malformed_iff_witness :
    parseCSV "x".toList = Except.error csvErrorMsg :=
  (parseCSV_malformed_iff "x".toList).1 (by decide)

lemma rpow_25_sq {x : ℝ} (hx : 0 ≤ x) : (x ^ ((5:ℝ)/2))^(2:ℕ) = x^(5:ℕ) := by
  rw [← Real.rpow_natCast (x ^ ((5:ℝ)/2)) 2, ← Real.rpow_mul hx,
    show ((5:ℝ)/2) * (2:ℕ) = ((5:ℕ):ℝ) by norm_num, Real.rpow_natCast]

lemma scale04 : scaleProbs (0.4:ℝ) [0.4, 0.35, 0.25] =
    [(0.4:ℝ) ^ ((5:ℝ)/2), (0.35:ℝ) ^ ((5:ℝ)/2), (0.25:ℝ) ^ ((5:ℝ)/2)] := by
  rw [scaleProbs, List.map_cons, List.map_cons, List.map_cons, List.map_nil]
  have he : (1:ℝ)/(0.4:ℝ) = (5:ℝ)/2 := by norm_num
  have h1 : max (0.4:ℝ) 0.001 = 0.4 := by norm_num
  have h2 : max (0.35:ℝ) 0.001 = 0.35 := by norm_num
  have h3 : max (0.25:ℝ) 0.001 = 0.25 := by norm_num
  rw [he, h1, h2, h3]

lemma A25_bounds : (0.1011:ℝ) < (0.4:ℝ) ^ ((5:ℝ)/2) ∧ (0.4:ℝ) ^ ((5:ℝ)/2) < 0.1012 := by
  have h0 : (0:ℝ) ≤ (0.4:ℝ) ^ ((5:ℝ)/2) := Real.rpow_nonneg (by norm_num) _
  have h2 : ((0.4:ℝ) ^ ((5:ℝ)/2))^(2:ℕ) = (0.4:ℝ)^(5:ℕ) := rpow_25_sq (by norm_num)
  constructor
  · refine lt_of_pow_lt_pow_left₀ 2 h0 ?_
    rw [h2]
    norm_num
  · refine lt_of_pow_lt_pow_left₀ 2 (by norm_num) ?_
    rw [h2]
    norm_num

lemma B25_bounds : (0.0724:ℝ) < (0.35:ℝ) ^ ((5:ℝ)/2) ∧ (0.35:ℝ) ^ ((5:ℝ)/2) < 0.0725 := by
  have h0 : (0:ℝ) ≤ (0.35:ℝ) ^ ((5:ℝ)/2) := Real.rpow_nonneg (by norm_num) _
  have h2 : ((0.35:ℝ) ^ ((5:ℝ)/2))^(2:ℕ) = (0.35:ℝ)^(5:ℕ) := rpow_25_sq (by norm_num)
  constructor
  · refine lt_of_pow_lt_pow_left₀ 2 h0 ?_
    rw [h2]
    norm_num
  · refine lt_of_pow_lt_pow_left₀ 2 (by norm_num) ?_
    rw [h2]
    norm_num

lemma C25_bounds : (0.0312:ℝ) < (0.25:ℝ) ^ ((5:ℝ)/2) ∧ (0.25:ℝ) ^ ((5:ℝ)/2) < 0.0313 := by
  have h0 : (0:ℝ) ≤ (0.25:ℝ) ^ ((5:ℝ)/2) := Real.rpow_nonneg (by norm_num) _
  have h2 : ((0.25:ℝ) ^ ((5:ℝ)/2))^(2:ℕ) = (0.25:ℝ)^(5:ℕ) := rpow_25_sq (by norm_num)
  constructor
  · refine lt_of_pow_lt_pow_left₀ 2 h0 ?_
    rw [h2]
    norm_num
  · refine lt_of_pow_lt_pow_left₀ 2 (by norm_num) ?_
    rw [h2]
    norm_num

lemma renorm3 (x y z : ℝ) : renormProbs [x, y, z] =
    [x / (x + y + z), y / (x + y + z), z / (x + y + z)] := by
  rw [renormProbs, List.map_cons, List.map_cons, List.map_cons, List.map_nil,
    List.sum_cons, List.sum_cons, List.sum_cons, List.sum_nil]
  ring_nf

lemma argmax3_first (u v w : ℝ) (hu : 0 < u) (hv : ¬v > u) (hw : ¬w > u) :
    argmaxLoop [u, v, w] = (u, 0) := by
  rw [argmaxLoop]
  show List.foldl _ ((0:ℝ), (0:Nat)) [(0, u), (1, v), (2, w)] = (u, 0)
  rw [List.foldl_cons, List.foldl_cons, List.foldl_cons, List.foldl_nil]
  simp only
  rw [if_pos hu, if_neg hv, if_neg hw]

lemma argmax3_third (u v w : ℝ) (hu : 0 < u) (hv : ¬v > u) (hw : w > u) :
    argmaxLoop [u, v, w] = (w, 2) := by
  rw [argmaxLoop]
  show List.foldl _ ((0:ℝ), (0:Nat)) [(0, u), (1, v), (2, w)] = (w, 2)
  rw [List.foldl_cons, List.foldl_cons, List.foldl_cons, List.foldl_nil]
  simp only
  rw [if_pos hu, if_neg hv, if_pos hw]

lemma argmax3_second (u v w : ℝ) (hu : 0 < u) (hv : v > u) (hw : ¬w > v) :
    argmaxLoop [u, v, w] = (v, 1) := by
  rw [argmaxLoop]
  show List.foldl _ ((0:ℝ), (0:Nat)) [(0, u), (1, v), (2, w)] = (v, 1)
  rw [List.foldl_cons, List.foldl_cons, List.foldl_cons, List.foldl_nil]
  simp only
  rw [if_pos hu, if_pos hv, if_neg hw]

lemma conf04_eval (r : Nat) (hr : r = 0 ∨ r = 1 ∨ r = 2) :
    (predictDecision 0.4 r [0.4, 0.35, 0.25]).1 =
      (0.4:ℝ)^((5:ℝ)/2) /
        ((0.4:ℝ)^((5:ℝ)/2) + (0.35:ℝ)^((5:ℝ)/2) + (0.25:ℝ)^((5:ℝ)/2)) := by
  obtain ⟨hA1, hA2⟩ := A25_bounds
  obtain ⟨hB1, hB2⟩ := B25_bounds
  obtain ⟨hC1, hC2⟩ := C25_bounds
  set A := (0.4:ℝ)^((5:ℝ)/2) with hA
  set B := (0.35:ℝ)^((5:ℝ)/2) with hB
  set C := (0.25:ℝ)^((5:ℝ)/2) with hC
  have hs : 0 < A + B + C := by linarith
  have hAs : 0 < A / (A + B + C) := div_pos (by linarith) hs
  have hBs : 0 < B / (A + B + C) := div_pos (by linarith) hs
  have hCs : 0 < C / (A + B + C) := div_pos (by linarith) hs
  have hBA : ¬(B / (A + B + C) > A / (A + B + C)) :=
    not_lt.mpr (le_of_lt ((div_lt_div_iff_of_pos_right hs).mpr (by linarith)))
  have hCA : ¬(C / (A + B + C) > A / (A + B + C)) :=
    not_lt.mpr (le_of_lt ((div_lt_div_iff_of_pos_right hs).mpr (by linarith)))
  have hCB : ¬(C / (A + B + C) > B / (A + B + C)) :=
    not_lt.mpr (le_of_lt ((div_lt_div_iff_of_pos_right hs).mpr (by linarith)))
  have hAB : A / (A + B + C) > B / (A + B + C) :=
    (div_lt_div_iff_of_pos_right hs).mpr (by linarith)
  have hAC : A / (A + B + C) > C / (A + B + C) :=
    (div_lt_div_iff_of_pos_right hs).mpr (by linarith)
  rcases hr with rfl | rfl | rfl
  · rw [predictDecision, scale04, renorm3,
      show rotateProbs 0 [A / (A + B + C), B / (A + B + C), C / (A + B + C)] =
        [A / (A + B + C), B / (A + B + C), C / (A + B + C)] from rfl,
      argmax3_first _ _ _ hAs hBA hCA]
  · rw [predictDecision, scale04, renorm3,
      show rotateProbs 1 [A / (A + B + C), B / (A + B + C), C / (A + B + C)] =
        [B / (A + B + C), C / (A + B + C), A / (A + B + C)] from rfl,
      argmax3_third _ _ _ hBs hCB hAB]
  · rw [predictDecision, scale04, renorm3,
      show rotateProbs 2 [A / (A + B + C), B / (A + B + C), C / (A + B + C)] =
        [C / (A + B + C), A / (A + B + C), B / (A + B + C)] from rfl,
      argmax3_second _ _ _ hCs hAC (not_lt.mpr (le_of_lt hAB))]

/-- C4 counterexample: on the raw probabilities `[0.4, 0.35, 0.25]`,
temperature scaling with `T = 0.4` followed by the decision step reports
a confidence strictly below 0.6 (for every value of the random rotation),
not above it as the claim states. -/
theorem predict_confidence_not_above_06 :
    (predictDecision 0.4 0 [0.4, 0.35, 0.25]).1 < 0.6
    ∧ (predictDecision 0.4 1 [0.4, 0.35, 0.25]).1 < 0.6
    ∧ (predictDecision 0.4 2 [0.4, 0.35, 0.25]).1 < 0.6 := by
  obtain ⟨hA1, hA2⟩ := A25_bounds
  obtain ⟨hB1, hB2⟩ := B25_bounds
  obtain ⟨hC1, hC2⟩ := C25_bounds
  have hs : (0:ℝ) < (0.4:ℝ)^((5:ℝ)/2) + (0.35:ℝ)^((5:ℝ)/2) + (0.25:ℝ)^((5:ℝ)/2) := by
    linarith
  have hkey : (0.4:ℝ)^((5:ℝ)/2) /
      ((0.4:ℝ)^((5:ℝ)/2) + (0.35:ℝ)^((5:ℝ)/2) + (0.25:ℝ)^((5:ℝ)/2)) < 0.6 := by
    rw [div_lt_iff₀ hs]
    nlinarith
  exact ⟨by rw [conf04_eval 0 (Or.inl rfl)]; exact hkey,
    by rw [conf04_eval 1 (Or.inr (Or.inl rfl))]; exact hkey,
    by rw [conf04_eval 2 (Or.inr (Or.inr rfl))]; exact hkey⟩

/-- C4 (amended): on the raw probabilities `[0.4, 0.35, 0.25]`,
calibration with `T = 0.4` sharpens the distribution — the reported
confidence is strictly greater than the raw maximum 0.4 — but it stays
strictly below 0.6 (about 0.494), for every value of the random
rotation. -/
theorem predict_confidence_sharpened_below_06 :
    (0.4 < (predictDecision 0.4 0 [0.4, 0.35, 0.25]).1
      ∧ (predictDecision 0.4 0 [0.4, 0.35, 0.25]).1 < 0.6)
    ∧ (0.4 < (predictDecision 0.4 1 [0.4, 0.35, 0.25]).1
      ∧ (predictDecision 0.4 1 [0.4, 0.35, 0.25]).1 < 0.6)
    ∧ (0.4 < (predictDecision 0.4 2 [0.4, 0.35, 0.25]).1
      ∧ (predictDecision 0.4 2 [0.4, 0.35, 0.25]).1 < 0.6) := by
  obtain ⟨hA1, hA2⟩ := A25_bounds
  obtain ⟨hB1, hB2⟩ := B25_bounds
  obtain ⟨hC1, hC2⟩ := C25_bounds
  have hs : (0:ℝ) < (0.4:ℝ)^((5:ℝ)/2) + (0.35:ℝ)^((5:ℝ)/2) + (0.25:ℝ)^((5:ℝ)/2) := by
    linarith
  have hup : (0.4:ℝ)^((5:ℝ)/2) /
      ((0.4:ℝ)^((5:ℝ)/2) + (0.35:ℝ)^((5:ℝ)/2) + (0.25:ℝ)^((5:ℝ)/2)) < 0.6 := by
    rw [div_lt_iff₀ hs]
    nlinarith
  have hlo : (0.4:ℝ) < (0.4:ℝ)^((5:ℝ)/2) /
      ((0.4:ℝ)^((5:ℝ)/2) + (0.35:ℝ)^((5:ℝ)/2) + (0.25:ℝ)^((5:ℝ)/2)) := by
    rw [lt_div_iff₀ hs]
    nlinarith
  exact ⟨⟨by rw [conf04_eval 0 (Or.inl rfl)]; exact hlo,
      by rw [conf04_eval 0 (Or.inl rfl)]; exact hup⟩,
    ⟨by rw [conf04_eval 1 (Or.inr (Or.inl rfl))]; exact hlo,
      by rw [conf04_eval 1 (Or.inr (Or.inl rfl))]; exact hup⟩,
    ⟨by rw [conf04_eval 2 (Or.inr (Or.inr rfl))]; exact hlo,
      by rw [conf04_eval 2 (Or.inr (Or.inr rfl))]; exact hup⟩⟩
